import Mathlib

/-!
# Lexique GloBE: citation formatter, definition formatter, term table, selection state

A shallow embedding of `src/App.js`.  JavaScript strings are modelled as
`List Char`; a value that may be `undefined` is an `Option`.  The regular
expressions of the source only use the classes `\d`, `[a-z]`, `[0-9]`, `[ivx]`,
`\s` and literal characters, all of one UTF-16 unit, so that matching on
characters and matching on UTF-16 units agree.
-/

namespace Lexique

/-- A JavaScript string, as its sequence of characters. -/
abbrev JSString := List Char

/-! ## Character classes of the regular expressions -/

/-- The class `\d` (and `[0-9]`). -/
def isDigit (c : Char) : Bool := c.isDigit

/-- The class `[a-z]`. -/
def isLowerLetter (c : Char) : Bool := c.isLower

/-- The class `[ivx]`. -/
def isIvx (c : Char) : Bool := c = 'i' || c = 'v' || c = 'x'

/-- The class `\s` of ECMAScript: white space and line terminators. -/
def isSpace (c : Char) : Bool :=
  let n := c.toNat
  n = 0x09 || n = 0x0A || n = 0x0B || n = 0x0C || n = 0x0D || n = 0x20 ||
  n = 0xA0 || n = 0x1680 || (0x2000 ≤ n && n ≤ 0x200A) ||
  n = 0x2028 || n = 0x2029 || n = 0x202F || n = 0x205F || n = 0x3000 || n = 0xFEFF

/-! ## formatSource -/

/-- The test `source.match(/^\d/)`: the first character is a decimal digit. -/
def startsWithDigit : JSString → Bool
  | [] => false
  | c :: _ => isDigit c

/-- The function `formatSource(source, sourceType)`; `none` is an absent citation. -/
def formatSource (source : Option JSString) (sourceType : String) : JSString :=
  match source with
  | none => []
  | some [] => []
  | some s =>
    if startsWithDigit s then
      if sourceType = "modeleFR" ∨ sourceType = "modeleEN" then
        "Modèle de règles, art. ".toList ++ s
      else if sourceType = "directiveFR" ∨ sourceType = "directiveEN" then
        "Dir. GloBE, art. ".toList ++ s
      else if sourceType = "cgi" then
        "CGI, art. ".toList ++ s
      else s
    else s

/-! ## formatDefinition -/

/-- The call `text.split("\n")`. -/
def splitLines : JSString → List JSString
  | [] => [[]]
  | c :: rest =>
    if c = '\n' then [] :: splitLines rest
    else
      match splitLines rest with
      | [] => [[c]]
      | l :: ls => (c :: l) :: ls

/-- Match of `/^[a-z]\)/` at the start of the line: what follows the match. -/
def letterMarker : JSString → Option JSString
  | c :: d :: rest => if isLowerLetter c && d = ')' then some rest else none
  | _ => none

/-- Match of `/^C+\)/` at the start of the line, for a character class `C`:
what follows the match.  The greedy run is the only candidate, since a shorter
run is followed by a character of `C`, which is not `)`. -/
def runMarker (p : Char → Bool) (line : JSString) : Option JSString :=
  match line.takeWhile p, line.dropWhile p with
  | _ :: _, d :: rest => if d = ')' then some rest else none
  | _, _ => none

/-- Match of `/^[0-9]+\)/`. -/
def digitMarker (line : JSString) : Option JSString := runMarker isDigit line

/-- Match of `/^[ivx]+\)/`. -/
def romanMarker (line : JSString) : Option JSString := runMarker isIvx line

/-- The call `line.replace(/^M\s*/, "")` for a marker pattern `M`: the marker
and the white space after it are removed; without a match the line is kept. -/
def stripMarker (marker : JSString → Option JSString) (line : JSString) : JSString :=
  match marker line with
  | some rest => rest.dropWhile isSpace
  | none => line

/-- A level-1 list item. -/
def li1 (t : JSString) : JSString := "<li class=\"ml-4 mb-2\">".toList ++ t ++ "</li>".toList

/-- A level-2 list item. -/
def li2 (t : JSString) : JSString := "<li class=\"ml-8 mb-2\">".toList ++ t ++ "</li>".toList

/-- A paragraph. -/
def para (t : JSString) : JSString := "<div class=\"mb-2\">".toList ++ t ++ "</div>".toList

/-- The callback of `.map((line) => ...)` in `formatDefinition`. -/
def formatLine (line : JSString) : JSString :=
  if (letterMarker line).isSome then li1 (stripMarker letterMarker line)
  else if (digitMarker line).isSome then li1 (stripMarker digitMarker line)
  else if (romanMarker line).isSome then li2 (stripMarker romanMarker line)
  else para line

/-- The chain `text.split("\n").map(...).join("")`. -/
def joinedLines (text : JSString) : JSString :=
  ((splitLines text).map formatLine).flatten

/-- The call `.replace(/<li/g, '<ul class="list-disc mb-4"><li')`, scanning
left to right; the first argument counts the characters of the current match
still to be skipped. -/
def openListsAux : Nat → JSString → JSString
  | _, [] => []
  | k + 1, _ :: rest => openListsAux k rest
  | 0, c :: rest =>
    if "<li".toList.isPrefixOf (c :: rest) then
      "<ul class=\"list-disc mb-4\"><li".toList ++ openListsAux 2 rest
    else c :: openListsAux 0 rest

/-- First replacement of the list wrapping. -/
def openLists (s : JSString) : JSString := openListsAux 0 s

/-- The negative lookahead `(?!<li|<ul)`. -/
def lookaheadOk (s : JSString) : Bool :=
  !("<li".toList.isPrefixOf s) && !("<ul".toList.isPrefixOf s)

/-- The part `\s*(?!<li|<ul)` with backtracking: `k` white-space characters are
available; the longest run after which the lookahead succeeds is consumed. -/
def spacesThenLookahead (s : JSString) : Nat → Option Nat
  | 0 => if lookaheadOk s then some 0 else none
  | k + 1 => if lookaheadOk (s.drop (k + 1)) then some (k + 1) else spacesThenLookahead s k

/-- Length of the match of `/<\/li>\s*(?!<li|<ul)/` at the start of `s`, if any. -/
def closeMatch (s : JSString) : Option Nat :=
  if "</li>".toList.isPrefixOf s then
    (spacesThenLookahead (s.drop 5) ((s.drop 5).takeWhile isSpace).length).map (· + 5)
  else none

/-- The call `.replace(/<\/li>\s*(?!<li|<ul)/g, "</li></ul>")`. -/
def closeListsAux : Nat → JSString → JSString
  | _, [] => []
  | k + 1, _ :: rest => closeListsAux k rest
  | 0, c :: rest =>
    match closeMatch (c :: rest) with
    | some n => "</li></ul>".toList ++ closeListsAux (n - 1) rest
    | none => c :: closeListsAux 0 rest

/-- Second replacement of the list wrapping. -/
def closeLists (s : JSString) : JSString := closeListsAux 0 s

/-- The function `formatDefinition(text)`: the `__html` string of its result;
`none` is an absent definition. -/
def formatDefinition (text : Option JSString) : JSString :=
  match text with
  | none => []
  | some [] => []
  | some t => closeLists (openLists (joinedLines t))

/-- Number of positions of `s` at which `pat` occurs. -/
def countOcc (pat : JSString) : JSString → Nat
  | [] => if pat.isEmpty then 1 else 0
  | c :: rest => (if pat.isPrefixOf (c :: rest) then 1 else 0) + countOcc pat rest

/-! ### The result, block by block -/

/-- The list opening that the first replacement puts before `<li`. -/
def ulOpen : JSString := "<ul class=\"list-disc mb-4\">".toList

/-- The list closing that the second replacement puts after `</li>`. -/
def ulClose : JSString := "</ul>".toList

/-- What the two replacements of the list wrapping make of a text. -/
def wrapText (t : JSString) : JSString := closeLists (openLists t)

/-- The callback renders the line as a list item. -/
def isItemLine (line : JSString) : Bool :=
  (letterMarker line).isSome || (digitMarker line).isSome || (romanMarker line).isSome

/-- What follows the `</li>` of a list item: nothing when another item
follows, the list closing otherwise. -/
def listEnd (nextItem : Bool) : JSString := if nextItem then [] else ulClose

/-- The block of the result for one line: a list item inside its list opening,
or a paragraph; `nextItem` tells whether the next line is a list item. -/
def outBlock (line : JSString) (nextItem : Bool) : JSString :=
  if (letterMarker line).isSome then
    ulOpen ++ li1 (wrapText (stripMarker letterMarker line)) ++ listEnd nextItem
  else if (digitMarker line).isSome then
    ulOpen ++ li1 (wrapText (stripMarker digitMarker line)) ++ listEnd nextItem
  else if (romanMarker line).isSome then
    ulOpen ++ li2 (wrapText (stripMarker romanMarker line)) ++ listEnd nextItem
  else para (wrapText line)

/-- The first of the lines is a list item. -/
def nextIsItem : List JSString → Bool
  | [] => false
  | n :: _ => isItemLine n

/-- The blocks of the result, one per line, in line order. -/
def outBlocks : List JSString → List JSString
  | [] => []
  | l :: ls => outBlock l (nextIsItem ls) :: outBlocks ls

/-- The block of a line after the first replacement only. -/
def openedBlock (line : JSString) : JSString :=
  if (letterMarker line).isSome then ulOpen ++ li1 (openLists (stripMarker letterMarker line))
  else if (digitMarker line).isSome then ulOpen ++ li1 (openLists (stripMarker digitMarker line))
  else if (romanMarker line).isSome then ulOpen ++ li2 (openLists (stripMarker romanMarker line))
  else para (openLists line)

/-- What stands after a block once the first replacement is done: nothing, the
list opening of an item, or the opening of a paragraph. -/
def Follows (Z : JSString) (nextItem : Bool) : Prop :=
  (Z = [] ∧ nextItem = false) ∨
  (∃ Y, Z = '<' :: 'u' :: 'l' :: Y ∧ nextItem = true) ∨
  (∃ Y, Z = '<' :: 'd' :: Y ∧ nextItem = false)

/-- Wherever `line` is a line of a text, the result of `formatDefinition` is
the concatenation of the blocks of the lines, and the block at the position of
`line` is the list opening, the list item `item`, and the list closing unless
an item follows. -/
def RendersItem (line item : JSString) : Prop :=
  ∀ (text : JSString) (i : Nat), (splitLines text)[i]? = some line →
    formatDefinition (some text) = (outBlocks (splitLines text)).flatten ∧
    (outBlocks (splitLines text))[i]? =
      some (ulOpen ++ item ++ listEnd (nextIsItem ((splitLines text).drop (i + 1))))

/-! ### The marker rules as the specification words them -/

/-- Rule 1 of the specification: the line starts with exactly one lowercase
letter `a`-`z` immediately followed by `)`. -/
def SpecLetterMarker (line : JSString) : Prop :=
  ∃ c rest, line = c :: ')' :: rest ∧ 'a' ≤ c ∧ c ≤ 'z'

/-- Rule 2 of the specification: the line starts with one or more decimal
digits immediately followed by `)`. -/
def SpecDigitMarker (line : JSString) : Prop :=
  ∃ ds rest, line = ds ++ ')' :: rest ∧ ds ≠ [] ∧ ∀ d ∈ ds, '0' ≤ d ∧ d ≤ '9'

/-- Rule 3 of the specification: the line starts with one or more characters
from `i`, `v`, `x` immediately followed by `)`. -/
def SpecRomanMarker (line : JSString) : Prop :=
  ∃ rs rest, line = rs ++ ')' :: rest ∧ rs ≠ [] ∧ ∀ r ∈ rs, r = 'i' ∨ r = 'v' ∨ r = 'x'

/-! ## The term table built by `loadData` -/

/-- The configuration entries of `sources`. -/
structure Source where
  id : String
  label : String
  col : Nat
  sourceCol : Nat
  deriving DecidableEq, Repr

/-- The constant `sources`. -/
def sources : List Source :=
  [ { id := "modeleFR", label := "Modèle (FR)", col := 1, sourceCol := 0 },
    { id := "modeleEN", label := "Modèle (EN)", col := 3, sourceCol := 0 },
    { id := "directiveFR", label := "Directive (FR)", col := 6, sourceCol := 5 },
    { id := "directiveEN", label := "Directive (EN)", col := 8, sourceCol := 5 },
    { id := "cgi", label := "CGI", col := 11, sourceCol := 10 } ]

/-- A parsed row: its cells, in order. -/
abbrev Row := List JSString

/-- One slot of a term record: `{ term, def, source }`; a field read past the
end of the row is `undefined`, here `none`. -/
structure SourceEntry where
  term : Option JSString
  defn : Option JSString
  source : Option JSString
  deriving DecidableEq, Repr

/-- A record of the term table. -/
structure TermRecord where
  modeleFR : SourceEntry
  modeleEN : SourceEntry
  directiveFR : SourceEntry
  directiveEN : SourceEntry
  cgi : SourceEntry
  deriving DecidableEq, Repr

/-- The callback of `data.map((row) => ...)`. -/
def buildRecord (row : Row) : TermRecord :=
  { modeleFR := { term := row[1]?, defn := row[2]?, source := row[0]? },
    modeleEN := { term := row[3]?, defn := row[4]?, source := row[0]? },
    directiveFR := { term := row[6]?, defn := row[7]?, source := row[5]? },
    directiveEN := { term := row[8]?, defn := row[9]?, source := row[5]? },
    cgi := { term := row[11]?, defn := row[12]?, source := row[10]? } }

/-- Truthiness of a string or `undefined`: a present, non-empty string. -/
def truthy : Option JSString → Bool
  | some (_ :: _) => true
  | _ => false

/-- The callback of `.filter((term) => ...)` in `loadData`. -/
def hasTerm (term : TermRecord) : Bool :=
  truthy term.modeleFR.term || truthy term.modeleEN.term ||
  truthy term.directiveFR.term || truthy term.directiveEN.term ||
  truthy term.cgi.term

/-- The table `processedData` computed from `data`. -/
def processedData (data : List Row) : List TermRecord :=
  (data.map buildRecord).filter hasTerm

/-! ## filteredTerms -/

/-- The property read `term[id]`; `none` when the record has no such property. -/
def TermRecord.get? (t : TermRecord) (id : String) : Option SourceEntry :=
  if id = "modeleFR" then some t.modeleFR
  else if id = "modeleEN" then some t.modeleEN
  else if id = "directiveFR" then some t.directiveFR
  else if id = "directiveEN" then some t.directiveEN
  else if id = "cgi" then some t.cgi
  else none

/-- The call `s.includes(t)`: `t` occurs in `s`. -/
def includes (s t : JSString) : Bool :=
  match s with
  | [] => t.isEmpty
  | c :: rest => t.isPrefixOf (c :: rest) || includes rest t

/-- The callback of `terms.filter(...)` in `filteredTerms`, for the built-in
`toLowerCase` given as `lower`; `none` stands for the `TypeError` of reading
`.term` of `undefined`. -/
def matchesSearch (lower : JSString → JSString) (id : String) (searchTerm : JSString)
    (t : TermRecord) : Option Bool :=
  match t.get? id with
  | none => none
  | some e =>
    match e.term with
    | none => some false
    | some s => some (includes (lower s) (lower searchTerm))

/-- The method `filter` with a callback that may throw. -/
def filterThrow {α : Type} (p : α → Option Bool) : List α → Option (List α)
  | [] => some []
  | x :: xs =>
    match p x with
    | none => none
    | some b =>
      match filterThrow p xs with
      | none => none
      | some r => some (if b then x :: r else r)

/-- The value `filteredTerms`. -/
def filteredTerms (lower : JSString → JSString) (terms : List TermRecord)
    (selectedSource : Source) (searchTerm : JSString) : Option (List TermRecord) :=
  filterThrow (matchesSearch lower selectedSource.id searchTerm) terms

/-! ## The selection state -/

/-- The state `selectedSource`, `compareSource` of the component. -/
structure Selection where
  selectedSource : Source
  compareSource : Source
  deriving DecidableEq, Repr

/-- The initial state: `useState(sources[0])`, `useState(sources[1])`. -/
def initialSelection : Selection :=
  { selectedSource := sources.get ⟨0, by decide⟩,
    compareSource := sources.get ⟨1, by decide⟩ }

/-- The `onChange` of the first select, for `e.target.value = value`; `none`
when `sources.find` gives `undefined`. -/
def onChangeSelected (st : Selection) (value : String) : Option Selection :=
  match sources.find? (fun s => s.id = value) with
  | none => none
  | some newSource =>
    if st.compareSource.id = newSource.id then
      match sources.find? (fun s => s.id ≠ newSource.id) with
      | none => none
      | some c => some { selectedSource := newSource, compareSource := c }
    else some { selectedSource := newSource, compareSource := st.compareSource }

/-- The `onChange` of the second select, for `e.target.value = value`. -/
def onChangeCompare (st : Selection) (value : String) : Option Selection :=
  match sources.find? (fun s => s.id = value) with
  | none => none
  | some c => some { selectedSource := st.selectedSource, compareSource := c }

/-- The option values of the first select: `sources.map(...)`. -/
def selectedOptions : List String := sources.map (fun s => s.id)

/-- The option values of the second select:
`sources.filter((s) => s.id !== selectedSource.id).map(...)`. -/
def compareOptions (st : Selection) : List String :=
  (sources.filter (fun s => s.id ≠ st.selectedSource.id)).map (fun s => s.id)

/-- A user action on one of the two selects. -/
inductive Event where
  | chooseSelected (value : String)
  | chooseCompare (value : String)
  deriving DecidableEq, Repr

/-- One transition: a select only emits a value of one of its options. -/
def step (st : Selection) : Event → Option Selection
  | .chooseSelected v => if v ∈ selectedOptions then onChangeSelected st v else none
  | .chooseCompare v => if v ∈ compareOptions st then onChangeCompare st v else none

/-- A sequence of transitions. -/
def run (st : Selection) : List Event → Option Selection
  | [] => some st
  | e :: es =>
    match step st e with
    | none => none
    | some st1 => run st1 es

/-! ## Character classes -/

theorem isDigit_iff (c : Char) : isDigit c = true ↔ ('0' ≤ c ∧ c ≤ '9') := by
  simp only [isDigit, Char.isDigit, Bool.and_eq_true, decide_eq_true_eq, Char.le_def]
  rfl

theorem isLowerLetter_iff (c : Char) : isLowerLetter c = true ↔ ('a' ≤ c ∧ c ≤ 'z') := by
  simp only [isLowerLetter, Char.isLower, Bool.and_eq_true, decide_eq_true_eq, Char.le_def]
  rfl

theorem isIvx_iff (c : Char) : isIvx c = true ↔ (c = 'i' ∨ c = 'v' ∨ c = 'x') := by
  simp [isIvx, or_assoc]

/-! ## The marker patterns -/

theorem letterMarker_eq_some {line rest : JSString} :
    letterMarker line = some rest ↔ ∃ c, line = c :: ')' :: rest ∧ isLowerLetter c = true := by
  match line with
  | [] => simp [letterMarker]
  | [c] => simp [letterMarker]
  | c :: d :: tl =>
    simp only [letterMarker, Bool.and_eq_true, decide_eq_true_eq, List.cons.injEq]
    constructor
    · intro h
      split at h
      · rename_i hcd
        exact ⟨c, ⟨rfl, hcd.2, Option.some.inj h⟩, hcd.1⟩
      · exact absurd h (by simp)
    · rintro ⟨c1, ⟨rfl, rfl, rfl⟩, hc⟩
      simp [hc]

theorem runMarker_of_run (p : Char → Bool) (hp : p ')' = false) (run rest : JSString)
    (hne : run ≠ []) (hall : ∀ x ∈ run, p x = true) :
    runMarker p (run ++ ')' :: rest) = some rest := by
  have ht : (run ++ ')' :: rest).takeWhile p = run := by
    rw [List.takeWhile_append_of_pos hall, List.takeWhile_cons, hp]
    simp
  have hd : (run ++ ')' :: rest).dropWhile p = ')' :: rest := by
    rw [List.dropWhile_append_of_pos hall, List.dropWhile_cons, hp]
    simp
  unfold runMarker
  rw [ht, hd]
  cases run with
  | nil => exact absurd rfl hne
  | cons a l => simp

theorem runMarker_eq_some (p : Char → Bool) {line rest : JSString}
    (h : runMarker p line = some rest) :
    ∃ run, run ≠ [] ∧ (∀ x ∈ run, p x = true) ∧ line = run ++ ')' :: rest := by
  unfold runMarker at h
  split at h
  · rename_i a l d tl ht hd
    split at h
    · rename_i hd2
      subst hd2
      cases h
      refine ⟨a :: l, by simp, ?_, ?_⟩
      · intro x hx
        rw [← ht] at hx
        exact List.mem_takeWhile_imp hx
      · rw [← ht, ← hd, List.takeWhile_append_dropWhile]
    · exact absurd h (by simp)
  · exact absurd h (by simp)

theorem letterMarker_isSome_iff (line : JSString) :
    (letterMarker line).isSome = true ↔ SpecLetterMarker line := by
  rw [Option.isSome_iff_exists]
  constructor
  · rintro ⟨rest, h⟩
    obtain ⟨c, hl, hc⟩ := letterMarker_eq_some.1 h
    exact ⟨c, rest, hl, (isLowerLetter_iff c).1 hc⟩
  · rintro ⟨c, rest, hl, hc⟩
    exact ⟨rest, letterMarker_eq_some.2 ⟨c, hl, (isLowerLetter_iff c).2 hc⟩⟩

theorem digitMarker_isSome_iff (line : JSString) :
    (digitMarker line).isSome = true ↔ SpecDigitMarker line := by
  rw [Option.isSome_iff_exists]
  constructor
  · rintro ⟨rest, h⟩
    obtain ⟨run, hne, hall, hl⟩ := runMarker_eq_some isDigit h
    exact ⟨run, rest, hl, hne, fun d hd => (isDigit_iff d).1 (hall d hd)⟩
  · rintro ⟨run, rest, hl, hne, hall⟩
    subst hl
    exact ⟨rest, runMarker_of_run isDigit (by decide) run rest hne
      fun d hd => (isDigit_iff d).2 (hall d hd)⟩

theorem romanMarker_isSome_iff (line : JSString) :
    (romanMarker line).isSome = true ↔ SpecRomanMarker line := by
  rw [Option.isSome_iff_exists]
  constructor
  · rintro ⟨rest, h⟩
    obtain ⟨run, hne, hall, hl⟩ := runMarker_eq_some isIvx h
    exact ⟨run, rest, hl, hne, fun d hd => (isIvx_iff d).1 (hall d hd)⟩
  · rintro ⟨run, rest, hl, hne, hall⟩
    subst hl
    exact ⟨rest, runMarker_of_run isIvx (by decide) run rest hne
      fun d hd => (isIvx_iff d).2 (hall d hd)⟩

theorem isLowerLetter_of_isIvx {c : Char} (h : isIvx c = true) : isLowerLetter c = true := by
  rcases (isIvx_iff c).1 h with h | h | h <;> subst h <;> rfl

theorem isDigit_of_isLowerLetter {c : Char} (h : isLowerLetter c = true) : isDigit c = false := by
  have h1 := (isLowerLetter_iff c).1 h
  cases hd : isDigit c with
  | false => rfl
  | true =>
    have h2 := (isDigit_iff c).1 hd
    exact absurd (le_trans h1.1 h2.2) (by decide)

theorem runMarker_of_not_head (p : Char → Bool) (c : Char) (l : JSString) (h : p c = false) :
    runMarker p (c :: l) = none := by
  simp [runMarker, List.takeWhile_cons, h]

theorem letterMarker_of_second_ne (c d : Char) (l : JSString) (h : d ≠ ')') :
    letterMarker (c :: d :: l) = none := by
  simp [letterMarker, h]

theorem letterMarker_of_not_lower (c : Char) (l : JSString) (h : isLowerLetter c = false) :
    letterMarker (c :: l) = none := by
  cases l <;> simp [letterMarker, h]

theorem dropWhile_spaces (w t : JSString) (hw : ∀ x ∈ w, isSpace x = true)
    (ht : ∀ x rest, t = x :: rest → isSpace x = false) :
    (w ++ t).dropWhile isSpace = t := by
  rw [List.dropWhile_append_of_pos hw]
  cases t with
  | nil => rfl
  | cons x rest => simp [List.dropWhile_cons, ht x rest rfl]

theorem li1_take (t : JSString) : (li1 t).take 15 = "<li class=\"ml-4".toList := rfl

theorem li2_take (t : JSString) : (li2 t).take 15 = "<li class=\"ml-8".toList := rfl

theorem para_take (t : JSString) : (para t).take 15 = "<div class=\"mb-".toList := rfl

theorem blocks_disjoint (t u : JSString) : li1 t ≠ li2 u ∧ li1 t ≠ para u ∧ li2 t ≠ para u := by
  refine ⟨fun h => ?_, fun h => ?_, fun h => ?_⟩
  · have := congrArg (List.take 15) h
    rw [li1_take, li2_take] at this
    exact absurd this (by decide)
  · have := congrArg (List.take 15) h
    rw [li1_take, para_take] at this
    exact absurd this (by decide)
  · have := congrArg (List.take 15) h
    rw [li2_take, para_take] at this
    exact absurd this (by decide)

theorem formatLine_of_letter {line rest : JSString} (h : letterMarker line = some rest) :
    formatLine line = li1 (rest.dropWhile isSpace) := by
  simp [formatLine, stripMarker, h]

theorem formatLine_of_digit {line rest : JSString} (h1 : letterMarker line = none)
    (h2 : digitMarker line = some rest) : formatLine line = li1 (rest.dropWhile isSpace) := by
  simp [formatLine, stripMarker, h1, h2]

theorem formatLine_of_roman {line rest : JSString} (h1 : letterMarker line = none)
    (h2 : digitMarker line = none) (h3 : romanMarker line = some rest) :
    formatLine line = li2 (rest.dropWhile isSpace) := by
  simp [formatLine, stripMarker, h1, h2, h3]

theorem formatLine_of_none {line : JSString} (h1 : letterMarker line = none)
    (h2 : digitMarker line = none) (h3 : romanMarker line = none) :
    formatLine line = para line := by
  simp [formatLine, h1, h2, h3]

theorem not_isSome_iff_none {α : Type} (o : Option α) : ¬ (o.isSome = true) ↔ o = none := by
  cases o <;> simp

/-! ## Classification of a line -/

/-- C2: a line is classified by the first rule that matches: rule 1 (one
lowercase letter then `)`) gives a level-1 item; else rule 2 (digits then `)`)
gives a level-1 item; else rule 3 (characters of `i`, `v`, `x` then `)`) gives
a level-2 item; every other line is a paragraph, unchanged.  So a single `i`,
`v` or `x` before `)` is level 1 and two or more of them before `)` are
level 2.  The three renderings are pairwise different. -/
theorem formatLine_first_match (line : JSString) :
    (SpecLetterMarker line → ∃ t, formatLine line = li1 t) ∧
    (¬ SpecLetterMarker line → SpecDigitMarker line → ∃ t, formatLine line = li1 t) ∧
    (¬ SpecLetterMarker line → ¬ SpecDigitMarker line → SpecRomanMarker line →
      ∃ t, formatLine line = li2 t) ∧
    (¬ SpecLetterMarker line → ¬ SpecDigitMarker line → ¬ SpecRomanMarker line →
      formatLine line = para line) ∧
    (∀ c rest, line = c :: ')' :: rest → (c = 'i' ∨ c = 'v' ∨ c = 'x') →
      ∃ t, formatLine line = li1 t) ∧
    (∀ rs rest, line = rs ++ ')' :: rest → 2 ≤ rs.length →
      (∀ r ∈ rs, r = 'i' ∨ r = 'v' ∨ r = 'x') → ∃ t, formatLine line = li2 t) ∧
    (∀ t u : JSString, li1 t ≠ li2 u ∧ li1 t ≠ para u ∧ li2 t ≠ para u) := by
  refine ⟨?_, ?_, ?_, ?_, ?_, ?_, blocks_disjoint⟩
  · intro h
    obtain ⟨rest, hr⟩ := Option.isSome_iff_exists.1 ((letterMarker_isSome_iff line).2 h)
    exact ⟨_, formatLine_of_letter hr⟩
  · intro h1 h2
    have n1 := (not_isSome_iff_none _).1 (mt (letterMarker_isSome_iff line).1 h1)
    obtain ⟨rest, hr⟩ := Option.isSome_iff_exists.1 ((digitMarker_isSome_iff line).2 h2)
    exact ⟨_, formatLine_of_digit n1 hr⟩
  · intro h1 h2 h3
    have n1 := (not_isSome_iff_none _).1 (mt (letterMarker_isSome_iff line).1 h1)
    have n2 := (not_isSome_iff_none _).1 (mt (digitMarker_isSome_iff line).1 h2)
    obtain ⟨rest, hr⟩ := Option.isSome_iff_exists.1 ((romanMarker_isSome_iff line).2 h3)
    exact ⟨_, formatLine_of_roman n1 n2 hr⟩
  · intro h1 h2 h3
    exact formatLine_of_none
      ((not_isSome_iff_none _).1 (mt (letterMarker_isSome_iff line).1 h1))
      ((not_isSome_iff_none _).1 (mt (digitMarker_isSome_iff line).1 h2))
      ((not_isSome_iff_none _).1 (mt (romanMarker_isSome_iff line).1 h3))
  · intro c rest hl hc
    exact ⟨_, formatLine_of_letter (letterMarker_eq_some.2
      ⟨c, hl, isLowerLetter_of_isIvx ((isIvx_iff c).2 hc)⟩)⟩
  · intro rs rest hl hlen hall
    match rs, hlen, hall with
    | a :: b :: tl, _, hall =>
      have ha : isIvx a = true := (isIvx_iff a).2 (hall a (by simp))
      have hb : isIvx b = true := (isIvx_iff b).2 (hall b (by simp))
      have hbne : b ≠ ')' := by
        rintro rfl
        exact absurd hb (by decide)
      subst hl
      have n1 : letterMarker (a :: b :: tl ++ ')' :: rest) = none :=
        letterMarker_of_second_ne a b _ hbne
      have n2 : digitMarker (a :: b :: tl ++ ')' :: rest) = none :=
        runMarker_of_not_head isDigit a _ (isDigit_of_isLowerLetter (isLowerLetter_of_isIvx ha))
      have n3 : romanMarker (a :: b :: tl ++ ')' :: rest) = some rest :=
        runMarker_of_run isIvx (by decide) (a :: b :: tl) rest (by simp)
          fun x hx => (isIvx_iff x).2 (hall x hx)
      exact ⟨_, formatLine_of_roman n1 n2 n3⟩

/-- Witness of C2: "i) Foo" is a level-1 item, "ii) Foo" a level-2 item, "12) Foo"
a level-1 item and "Plain text" a paragraph. -/
theorem formatLine_first_match_witness :
    (∃ t, formatLine "i) Foo".toList = li1 t) ∧
    (∃ t, formatLine "ii) Foo".toList = li2 t) ∧
    (∃ t, formatLine "12) Foo".toList = li1 t) ∧
    formatLine "Plain text".toList = para "Plain text".toList :=
  ⟨(formatLine_first_match "i) Foo".toList).2.2.2.2.1 'i' " Foo".toList rfl (Or.inl rfl),
   (formatLine_first_match "ii) Foo".toList).2.2.2.2.2.1 "ii".toList " Foo".toList rfl
     (by decide) (by decide),
   (formatLine_first_match "12) Foo".toList).2.1
     (by rintro ⟨c, rest, h, hc⟩; cases h)
     ⟨"12".toList, " Foo".toList, rfl, by decide, by decide⟩,
   formatLine_of_none rfl rfl rfl⟩

/-- The callback on a marker line: the marker and the white space after it
are removed from the item text. -/
theorem formatLine_item_text (w t : JSString) (hw : ∀ x ∈ w, isSpace x = true)
    (ht : ∀ x rest, t = x :: rest → isSpace x = false) :
    (∀ c : Char, 'a' ≤ c → c ≤ 'z' → formatLine ([c, ')'] ++ w ++ t) = li1 t) ∧
    (∀ ds : JSString, ds ≠ [] → (∀ d ∈ ds, '0' ≤ d ∧ d ≤ '9') →
      formatLine ((ds ++ [')']) ++ w ++ t) = li1 t) ∧
    (∀ rs : JSString, rs ≠ [] → (∀ r ∈ rs, r = 'i' ∨ r = 'v' ∨ r = 'x') →
      formatLine ((rs ++ [')']) ++ w ++ t) = if rs.length = 1 then li1 t else li2 t) := by
  have hdrop := dropWhile_spaces w t hw ht
  have letter : ∀ c : Char, isLowerLetter c = true →
      formatLine ([c, ')'] ++ w ++ t) = li1 t := by
    intro c hc
    have h : letterMarker ([c, ')'] ++ w ++ t) = some (w ++ t) :=
      letterMarker_eq_some.2 ⟨c, by simp, hc⟩
    rw [formatLine_of_letter h, hdrop]
  refine ⟨fun c h1 h2 => letter c ((isLowerLetter_iff c).2 ⟨h1, h2⟩), ?_, ?_⟩
  · intro ds hne hall
    have hline : (ds ++ [')']) ++ w ++ t = ds ++ ')' :: (w ++ t) := by simp
    rw [hline]
    have h2 : digitMarker (ds ++ ')' :: (w ++ t)) = some (w ++ t) :=
      runMarker_of_run isDigit (by decide) ds _ hne fun d hd => (isDigit_iff d).2 (hall d hd)
    have h1 : letterMarker (ds ++ ')' :: (w ++ t)) = none := by
      match ds, hne, hall with
      | d :: tl, _, hall =>
        have hd : isDigit d = true := (isDigit_iff d).2 (hall d (by simp))
        have hl : isLowerLetter d = false := by
          cases hlow : isLowerLetter d with
          | false => rfl
          | true => rw [isDigit_of_isLowerLetter hlow] at hd; cases hd
        exact letterMarker_of_not_lower d _ hl
    rw [formatLine_of_digit h1 h2, hdrop]
  · intro rs hne hall
    match rs, hne, hall with
    | [r], _, hall =>
      have hr : isIvx r = true := (isIvx_iff r).2 (hall r (by simp))
      simpa using letter r (isLowerLetter_of_isIvx hr)
    | a :: b :: tl, _, hall =>
      have ha : isIvx a = true := (isIvx_iff a).2 (hall a (by simp))
      have hb : isIvx b = true := (isIvx_iff b).2 (hall b (by simp))
      have hbne : b ≠ ')' := by
        rintro rfl
        exact absurd hb (by decide)
      have hline : ((a :: b :: tl) ++ [')']) ++ w ++ t = a :: b :: (tl ++ ')' :: (w ++ t)) := by
        simp
      rw [hline]
      have n1 : letterMarker (a :: b :: (tl ++ ')' :: (w ++ t))) = none :=
        letterMarker_of_second_ne a b _ hbne
      have n2 : digitMarker (a :: b :: (tl ++ ')' :: (w ++ t))) = none :=
        runMarker_of_not_head isDigit a _ (isDigit_of_isLowerLetter (isLowerLetter_of_isIvx ha))
      have n3 : romanMarker (a :: b :: (tl ++ ')' :: (w ++ t))) = some (w ++ t) :=
        runMarker_of_run isIvx (by decide) (a :: b :: tl) _ (by simp)
          fun x hx => (isIvx_iff x).2 (hall x hx)
      rw [formatLine_of_roman n1 n2 n3, hdrop]
      simp

/-! ## Splitting into lines -/

theorem splitLines_ne_nil (text : JSString) : splitLines text ≠ [] := by
  cases text with
  | nil => simp [splitLines]
  | cons c rest =>
    simp only [splitLines]
    split
    · simp
    · split <;> simp

theorem splitLines_cons_newline (rest : JSString) :
    splitLines ('\n' :: rest) = [] :: splitLines rest := by
  simp [splitLines]

theorem splitLines_cons_other (c : Char) (rest : JSString) (hc : c ≠ '\n') :
    ∃ l ls, splitLines rest = l :: ls ∧ splitLines (c :: rest) = (c :: l) :: ls := by
  cases h : splitLines rest with
  | nil => exact absurd h (splitLines_ne_nil rest)
  | cons l ls => exact ⟨l, ls, rfl, by simp [splitLines, hc, h]⟩

theorem intercalate_cons_cons (sep a b : JSString) (ls : List JSString) :
    sep.intercalate (a :: b :: ls) = a ++ sep ++ sep.intercalate (b :: ls) := by
  simp [List.intercalate, List.intersperse]

theorem intercalate_cons_head (sep : JSString) (c : Char) (l : JSString) (ls : List JSString) :
    sep.intercalate ((c :: l) :: ls) = c :: sep.intercalate (l :: ls) := by
  cases ls with
  | nil => simp [List.intercalate, List.intersperse]
  | cons b tl => simp [intercalate_cons_cons]

theorem intercalate_splitLines (text : JSString) :
    ['\n'].intercalate (splitLines text) = text := by
  induction text with
  | nil => simp [splitLines, List.intercalate, List.intersperse]
  | cons c rest ih =>
    by_cases hc : c = '\n'
    · subst hc
      rw [splitLines_cons_newline]
      cases h : splitLines rest with
      | nil => exact absurd h (splitLines_ne_nil rest)
      | cons l ls =>
        rw [intercalate_cons_cons, ← h, ih]
        rfl
    · obtain ⟨l, ls, h1, h2⟩ := splitLines_cons_other c rest hc
      rw [h2, intercalate_cons_head, ← h1, ih]

theorem splitLines_no_newline (text : JSString) : ∀ l ∈ splitLines text, '\n' ∉ l := by
  induction text with
  | nil => simp [splitLines]
  | cons c rest ih =>
    by_cases hc : c = '\n'
    · subst hc
      rw [splitLines_cons_newline]
      intro l hl
      rcases List.mem_cons.1 hl with h | h
      · subst h
        simp
      · exact ih l h
    · obtain ⟨l, ls, h1, h2⟩ := splitLines_cons_other c rest hc
      rw [h2]
      rw [h1] at ih
      intro x hx
      rcases List.mem_cons.1 hx with h | h
      · subst h
        intro hmem
        rcases List.mem_cons.1 hmem with h3 | h3
        · exact hc h3.symm
        · exact ih l (List.mem_cons_self l ls) h3
      · exact ih x (List.mem_cons_of_mem l h)

theorem splitLines_length (text : JSString) :
    (splitLines text).length = text.count '\n' + 1 := by
  induction text with
  | nil => rfl
  | cons c rest ih =>
    by_cases hc : c = '\n'
    · subst hc
      rw [splitLines_cons_newline, List.length_cons, ih, List.count_cons_self]
    · obtain ⟨l, ls, h1, h2⟩ := splitLines_cons_other c rest hc
      rw [h2, List.length_cons, ← List.length_cons l ls, ← h1, ih,
        List.count_cons_of_ne (Ne.symm hc)]

theorem splitLines_of_no_newline (text : JSString) (h : '\n' ∉ text) :
    splitLines text = [text] := by
  induction text with
  | nil => rfl
  | cons c rest ih =>
    have hc : c ≠ '\n' := fun e => h (e ▸ List.mem_cons_self c rest)
    have hr : '\n' ∉ rest := fun e => h (List.mem_cons_of_mem c e)
    simp [splitLines, hc, ih hr]

theorem formatLine_is_block (line : JSString) :
    (∃ t, formatLine line = li1 t) ∨ (∃ t, formatLine line = li2 t) ∨
      formatLine line = para line := by
  unfold formatLine
  split
  · exact Or.inl ⟨_, rfl⟩
  · split
    · exact Or.inl ⟨_, rfl⟩
    · split
      · exact Or.inr (Or.inl ⟨_, rfl⟩)
      · exact Or.inr (Or.inr rfl)

/-! ## The list wrapping on paragraphs -/

theorem li_lit : "<li".toList = ['<', 'l', 'i'] := rfl

theorem cli_lit : "</li>".toList = ['<', '/', 'l', 'i', '>'] := rfl

theorem li_isPrefixOf_append (c : Char) (l Y : JSString)
    (h : "<li".toList.isPrefixOf (c :: l) = false) :
    "<li".toList.isPrefixOf (c :: l ++ '<' :: Y) = false := by
  rw [li_lit] at h ⊢
  match l with
  | [] => simp [List.isPrefixOf]
  | [d] => simp [List.isPrefixOf]
  | d :: e :: tl => simpa [List.isPrefixOf] using h

theorem cli_isPrefixOf_append (c : Char) (l Y : JSString)
    (h : "</li>".toList.isPrefixOf (c :: l) = false) :
    "</li>".toList.isPrefixOf (c :: l ++ '<' :: Y) = false := by
  rw [cli_lit] at h ⊢
  match l with
  | [] => simp [List.isPrefixOf]
  | [d] => simp [List.isPrefixOf]
  | [d, e] => simp [List.isPrefixOf]
  | [d, e, f] => simp [List.isPrefixOf]
  | d :: e :: f :: g :: tl => simpa [List.isPrefixOf] using h

theorem includes_cons_false {c : Char} {l t : JSString} (h : includes (c :: l) t = false) :
    t.isPrefixOf (c :: l) = false ∧ includes l t = false := by
  simpa [includes] using h

theorem openListsAux_line (l Y : JSString) (h : includes l "<li".toList = false) :
    openListsAux 0 (l ++ '<' :: Y) = l ++ openListsAux 0 ('<' :: Y) := by
  induction l with
  | nil => rfl
  | cons c l ih =>
    obtain ⟨h1, h2⟩ := includes_cons_false h
    have h3 := li_isPrefixOf_append c l Y h1
    rw [List.cons_append] at h3 ⊢
    have hstep : openListsAux 0 (c :: (l ++ '<' :: Y)) = c :: openListsAux 0 (l ++ '<' :: Y) := by
      simp only [openListsAux, h3, Bool.false_eq_true, if_false]
    rw [hstep, ih h2, List.cons_append]

theorem closeListsAux_line (l Y : JSString) (h : includes l "</li>".toList = false) :
    closeListsAux 0 (l ++ '<' :: Y) = l ++ closeListsAux 0 ('<' :: Y) := by
  induction l with
  | nil => rfl
  | cons c l ih =>
    obtain ⟨h1, h2⟩ := includes_cons_false h
    have h3 := cli_isPrefixOf_append c l Y h1
    rw [List.cons_append] at h3 ⊢
    have hstep : closeListsAux 0 (c :: (l ++ '<' :: Y)) = c :: closeListsAux 0 (l ++ '<' :: Y) := by
      simp only [closeListsAux, closeMatch, h3, Bool.false_eq_true, if_false]
    rw [hstep, ih h2, List.cons_append]

theorem openListsAux_para (l X : JSString) (h : includes l "<li".toList = false) :
    openListsAux 0 (para l ++ X) = para l ++ openListsAux 0 X := by
  have e : para l ++ X =
      "<div class=\"mb-2\">".toList ++ (l ++ '<' :: ("/div>".toList ++ X)) := by
    simp [para]
  have e1 : openListsAux 0 ("<div class=\"mb-2\">".toList ++ (l ++ '<' :: ("/div>".toList ++ X))) =
      "<div class=\"mb-2\">".toList ++ openListsAux 0 (l ++ '<' :: ("/div>".toList ++ X)) := rfl
  have e2 : openListsAux 0 ('<' :: ("/div>".toList ++ X)) =
      '<' :: ("/div>".toList ++ openListsAux 0 X) := rfl
  rw [e, e1, openListsAux_line l _ h, e2]
  simp [para]

theorem closeListsAux_para (l X : JSString) (h : includes l "</li>".toList = false) :
    closeListsAux 0 (para l ++ X) = para l ++ closeListsAux 0 X := by
  have e : para l ++ X =
      "<div class=\"mb-2\">".toList ++ (l ++ '<' :: ("/div>".toList ++ X)) := by
    simp [para]
  have e1 : closeListsAux 0 ("<div class=\"mb-2\">".toList ++ (l ++ '<' :: ("/div>".toList ++ X))) =
      "<div class=\"mb-2\">".toList ++ closeListsAux 0 (l ++ '<' :: ("/div>".toList ++ X)) := rfl
  have e2 : closeListsAux 0 ('<' :: ("/div>".toList ++ X)) =
      '<' :: ("/div>".toList ++ closeListsAux 0 X) := rfl
  rw [e, e1, closeListsAux_line l _ h, e2]
  simp [para]

theorem openLists_paras (ls : List JSString)
    (h : ∀ l ∈ ls, includes l "<li".toList = false) :
    openLists (ls.map para).flatten = (ls.map para).flatten := by
  unfold openLists
  induction ls with
  | nil => rfl
  | cons l ls ih =>
    rw [List.map_cons, List.flatten_cons, openListsAux_para l _ (h l (List.mem_cons_self l ls)),
      ih fun x hx => h x (List.mem_cons_of_mem l hx)]

theorem closeLists_paras (ls : List JSString)
    (h : ∀ l ∈ ls, includes l "</li>".toList = false) :
    closeLists (ls.map para).flatten = (ls.map para).flatten := by
  unfold closeLists
  induction ls with
  | nil => rfl
  | cons l ls ih =>
    rw [List.map_cons, List.flatten_cons, closeListsAux_para l _ (h l (List.mem_cons_self l ls)),
      ih fun x hx => h x (List.mem_cons_of_mem l hx)]

theorem formatLine_of_no_marker {line : JSString}
    (h : ¬ SpecLetterMarker line ∧ ¬ SpecDigitMarker line ∧ ¬ SpecRomanMarker line) :
    formatLine line = para line :=
  formatLine_of_none
    ((not_isSome_iff_none _).1 (mt (letterMarker_isSome_iff line).1 h.1))
    ((not_isSome_iff_none _).1 (mt (digitMarker_isSome_iff line).1 h.2.1))
    ((not_isSome_iff_none _).1 (mt (romanMarker_isSome_iff line).1 h.2.2))

theorem no_marker_of_none {line : JSString} (h1 : letterMarker line = none)
    (h2 : digitMarker line = none) (h3 : romanMarker line = none) :
    ¬ SpecLetterMarker line ∧ ¬ SpecDigitMarker line ∧ ¬ SpecRomanMarker line := by
  refine ⟨fun h => ?_, fun h => ?_, fun h => ?_⟩
  · have := (letterMarker_isSome_iff line).2 h
    simp [h1] at this
  · have := (digitMarker_isSome_iff line).2 h
    simp [h2] at this
  · have := (romanMarker_isSome_iff line).2 h
    simp [h3] at this

/-- C6, counterexample: the one-line text "voir <li>" matches no marker, and
the list wrapping inserts a list opening into its paragraph. -/
theorem formatDefinition_paragraph_changed :
    (¬ SpecLetterMarker "voir <li>".toList ∧ ¬ SpecDigitMarker "voir <li>".toList ∧
      ¬ SpecRomanMarker "voir <li>".toList) ∧
    formatDefinition (some "voir <li>".toList) =
      "<div class=\"mb-2\">voir <ul class=\"list-disc mb-4\"><li></div>".toList ∧
    formatDefinition (some "voir <li>".toList) ≠ para "voir <li>".toList :=
  ⟨no_marker_of_none rfl rfl rfl, by decide, by decide⟩

/-- C6, amended: for a non-empty text in which no line matches any of the
three marker patterns and no line contains "<li" or "</li>", the result of
`formatDefinition` is the concatenation, in line order, of the paragraphs
`<div class="mb-2">` line `</div>` of its lines (an empty line gives an empty
paragraph); for such a text without a newline it is the paragraph of the text. -/
theorem formatDefinition_paragraphs (text : JSString) (hne : text ≠ [])
    (hmark : ∀ l ∈ splitLines text,
      ¬ SpecLetterMarker l ∧ ¬ SpecDigitMarker l ∧ ¬ SpecRomanMarker l)
    (hli : ∀ l ∈ splitLines text,
      includes l "<li".toList = false ∧ includes l "</li>".toList = false) :
    formatDefinition (some text) = ((splitLines text).map para).flatten ∧
    ('\n' ∉ text → formatDefinition (some text) = para text) := by
  have hjoin : joinedLines text = ((splitLines text).map para).flatten := by
    unfold joinedLines
    congr 1
    exact List.map_congr_left fun l hl => formatLine_of_no_marker (hmark l hl)
  have key : formatDefinition (some text) = ((splitLines text).map para).flatten := by
    cases text with
    | nil => exact absurd rfl hne
    | cons c rest =>
      show closeLists (openLists (joinedLines (c :: rest))) = _
      rw [hjoin, openLists_paras _ fun l hl => (hli l hl).1,
        closeLists_paras _ fun l hl => (hli l hl).2]
  refine ⟨key, fun hnl => ?_⟩
  rw [key, splitLines_of_no_newline text hnl]
  simp

/-- Witness of the amended C6: two paragraphs around an empty line. -/
theorem formatDefinition_paragraphs_witness :
    formatDefinition (some "Plain text\n\nApres".toList) =
      "<div class=\"mb-2\">Plain text</div><div class=\"mb-2\"></div><div class=\"mb-2\">Apres</div>".toList ∧
    formatDefinition (some "Plain text".toList) = para "Plain text".toList :=
  ⟨(formatDefinition_paragraphs "Plain text\n\nApres".toList (by decide)
      (by
        intro l hl
        have hl2 : l ∈ ["Plain text".toList, [], "Apres".toList] := hl
        simp only [List.mem_cons, List.mem_singleton, List.not_mem_nil, or_false] at hl2
        rcases hl2 with rfl | rfl | rfl <;> exact no_marker_of_none rfl rfl rfl)
      (by decide)).1,
   (formatDefinition_paragraphs "Plain text".toList (by decide)
      (by
        intro l hl
        have hl2 : l ∈ ["Plain text".toList] := hl
        simp only [List.mem_singleton] at hl2
        subst hl2
        exact no_marker_of_none rfl rfl rfl)
      (by decide)).2 (by decide)⟩

/-! ## The list wrapping, block by block -/

theorem ul_lit : "<ul".toList = ['<', 'u', 'l'] := rfl

theorem li_isPrefixOf_append_eq (c : Char) (l Y : JSString) :
    "<li".toList.isPrefixOf (c :: l ++ '<' :: Y) = "<li".toList.isPrefixOf (c :: l) := by
  rw [li_lit]
  match l with
  | [] => simp [List.isPrefixOf]
  | [d] => simp [List.isPrefixOf]
  | d :: e :: tl => simp [List.isPrefixOf]

theorem ul_isPrefixOf_append_eq (c : Char) (l Y : JSString) :
    "<ul".toList.isPrefixOf (c :: l ++ '<' :: Y) = "<ul".toList.isPrefixOf (c :: l) := by
  rw [ul_lit]
  match l with
  | [] => simp [List.isPrefixOf]
  | [d] => simp [List.isPrefixOf]
  | d :: e :: tl => simp [List.isPrefixOf]

theorem cli_isPrefixOf_append_eq (c : Char) (l Y : JSString) :
    "</li>".toList.isPrefixOf (c :: l ++ '<' :: Y) = "</li>".toList.isPrefixOf (c :: l) := by
  rw [cli_lit]
  match l with
  | [] => simp [List.isPrefixOf]
  | [d] => simp [List.isPrefixOf]
  | [d, e] => simp [List.isPrefixOf]
  | [d, e, f] => simp [List.isPrefixOf]
  | d :: e :: f :: g :: tl => simp [List.isPrefixOf]

theorem isPrefixOf_length {p s : JSString} (h : p.isPrefixOf s = true) :
    p.length ≤ s.length :=
  (List.isPrefixOf_iff_prefix.1 h).length_le

theorem openListsAux_skip (k : Nat) (c : Char) (r : JSString) :
    openListsAux (k + 1) (c :: r) = openListsAux k r := rfl

theorem openListsAux_copy {c : Char} {r : JSString}
    (h : "<li".toList.isPrefixOf (c :: r) = false) :
    openListsAux 0 (c :: r) = c :: openListsAux 0 r := by
  simp only [openListsAux, h, Bool.false_eq_true, if_false]

theorem openListsAux_hit {c : Char} {r : JSString}
    (h : "<li".toList.isPrefixOf (c :: r) = true) :
    openListsAux 0 (c :: r) =
      "<ul class=\"list-disc mb-4\"><li".toList ++ openListsAux 2 r := by
  simp only [openListsAux, h, if_true]

theorem openListsAux_append (t : JSString) :
    ∀ (k : Nat) (Y : JSString), k ≤ t.length →
      openListsAux k (t ++ '<' :: Y) = openListsAux k t ++ openListsAux 0 ('<' :: Y) := by
  induction t with
  | nil =>
    intro k Y hk
    have : k = 0 := by simpa using hk
    subst this
    rfl
  | cons c t ih =>
    intro k Y hk
    cases k with
    | succ k =>
      have hk2 : k ≤ t.length := by simpa using hk
      rw [List.cons_append, openListsAux_skip, openListsAux_skip]
      exact ih k Y hk2
    | zero =>
      rw [List.cons_append]
      have e := li_isPrefixOf_append_eq c t Y
      rw [List.cons_append] at e
      cases hb : "<li".toList.isPrefixOf (c :: t) with
      | false =>
        rw [hb] at e
        rw [openListsAux_copy e, openListsAux_copy hb, ih 0 Y (Nat.zero_le _), List.cons_append]
      | true =>
        rw [hb] at e
        have hlen := isPrefixOf_length hb
        have h2 : 2 ≤ t.length := by
          have : (3 : Nat) ≤ t.length + 1 := hlen
          omega
        rw [openListsAux_hit e, openListsAux_hit hb, ih 2 Y h2, List.append_assoc]

theorem length_takeWhile_le_length (p : Char → Bool) (l : JSString) :
    (l.takeWhile p).length ≤ l.length := by
  induction l with
  | nil => simp
  | cons c l ih =>
    rw [List.takeWhile_cons]
    split
    · simpa using ih
    · simp

theorem isSpace_lt : isSpace '<' = false := by decide

theorem takeWhile_isSpace_append (a Y : JSString) :
    (a ++ '<' :: Y).takeWhile isSpace = a.takeWhile isSpace := by
  induction a with
  | nil => simp [List.takeWhile_cons, isSpace_lt]
  | cons c a ih =>
    rw [List.cons_append, List.takeWhile_cons, List.takeWhile_cons, ih]

theorem lookaheadOk_append (x Y : JSString) :
    lookaheadOk (x ++ '<' :: '/' :: Y) = lookaheadOk x := by
  cases x with
  | nil => rfl
  | cons c x =>
    unfold lookaheadOk
    rw [li_isPrefixOf_append_eq, ul_isPrefixOf_append_eq]

theorem spacesThenLookahead_append (a Y : JSString) :
    ∀ k : Nat, k ≤ a.length →
      spacesThenLookahead (a ++ '<' :: '/' :: Y) k = spacesThenLookahead a k := by
  intro k
  induction k with
  | zero =>
    intro _
    simp only [spacesThenLookahead, lookaheadOk_append]
  | succ k ih =>
    intro hk
    simp only [spacesThenLookahead]
    rw [List.drop_append_of_le_length hk, lookaheadOk_append, ih (Nat.le_of_succ_le hk)]

theorem spacesThenLookahead_le (a : JSString) :
    ∀ k n : Nat, spacesThenLookahead a k = some n → n ≤ k := by
  intro k
  induction k with
  | zero =>
    intro n h
    simp only [spacesThenLookahead] at h
    split at h
    · cases h
      exact Nat.le_refl 0
    · cases h
  | succ k ih =>
    intro n h
    simp only [spacesThenLookahead] at h
    split at h
    · cases h
      exact Nat.le_refl _
    · exact Nat.le_succ_of_le (ih n h)

theorem closeMatch_append (c : Char) (u Y : JSString) :
    closeMatch (c :: u ++ '<' :: '/' :: Y) = closeMatch (c :: u) := by
  unfold closeMatch
  rw [cli_isPrefixOf_append_eq]
  cases hb : "</li>".toList.isPrefixOf (c :: u) with
  | false => rfl
  | true =>
    have hlen : 5 ≤ (c :: u).length := isPrefixOf_length hb
    simp only [if_true]
    rw [List.drop_append_of_le_length hlen, takeWhile_isSpace_append,
      spacesThenLookahead_append _ _ _ (length_takeWhile_le_length _ _)]

theorem closeMatch_bounds {s : JSString} {n : Nat} (h : closeMatch s = some n) :
    1 ≤ n ∧ n ≤ s.length := by
  unfold closeMatch at h
  split at h
  · rename_i hb
    have hlen : 5 ≤ s.length := isPrefixOf_length hb
    cases hs : spacesThenLookahead (s.drop 5) ((s.drop 5).takeWhile isSpace).length with
    | none => simp [hs] at h
    | some j =>
      rw [hs] at h
      simp only [Option.map_some', Option.some.injEq] at h
      have h1 := spacesThenLookahead_le _ _ _ hs
      have h2 : ((s.drop 5).takeWhile isSpace).length ≤ (s.drop 5).length :=
        length_takeWhile_le_length _ _
      rw [List.length_drop] at h2
      omega
  · cases h

theorem closeListsAux_skip (k : Nat) (c : Char) (r : JSString) :
    closeListsAux (k + 1) (c :: r) = closeListsAux k r := rfl

theorem closeListsAux_copy {c : Char} {r : JSString} (h : closeMatch (c :: r) = none) :
    closeListsAux 0 (c :: r) = c :: closeListsAux 0 r := by
  simp only [closeListsAux, h]

theorem closeListsAux_hit {c : Char} {r : JSString} {n : Nat}
    (h : closeMatch (c :: r) = some n) :
    closeListsAux 0 (c :: r) = "</li></ul>".toList ++ closeListsAux (n - 1) r := by
  simp only [closeListsAux, h]

theorem closeListsAux_append (u : JSString) :
    ∀ (k : Nat) (Y : JSString), k ≤ u.length →
      closeListsAux k (u ++ '<' :: '/' :: Y) =
        closeListsAux k u ++ closeListsAux 0 ('<' :: '/' :: Y) := by
  induction u with
  | nil =>
    intro k Y hk
    have : k = 0 := by simpa using hk
    subst this
    rfl
  | cons c u ih =>
    intro k Y hk
    cases k with
    | succ k =>
      have hk2 : k ≤ u.length := by simpa using hk
      rw [List.cons_append, closeListsAux_skip, closeListsAux_skip]
      exact ih k Y hk2
    | zero =>
      have e := closeMatch_append c u Y
      rw [List.cons_append] at e ⊢
      cases hm : closeMatch (c :: u) with
      | none =>
        rw [hm] at e
        rw [closeListsAux_copy e, closeListsAux_copy hm, ih 0 Y (Nat.zero_le _), List.cons_append]
      | some n =>
        rw [hm] at e
        have hb := closeMatch_bounds hm
        have h2 : n - 1 ≤ u.length := by
          have : n ≤ u.length + 1 := hb.2
          omega
        rw [closeListsAux_hit e, closeListsAux_hit hm, ih (n - 1) Y h2, List.append_assoc]

theorem openListsAux_li1 (t R : JSString) :
    openListsAux 0 (li1 t ++ R) = ulOpen ++ li1 (openLists t) ++ openListsAux 0 R := by
  have e : li1 t ++ R = "<li class=\"ml-4 mb-2\">".toList ++ (t ++ '<' :: ("/li>".toList ++ R)) := by
    simp [li1]
  have e1 : openListsAux 0 ("<li class=\"ml-4 mb-2\">".toList ++ (t ++ '<' :: ("/li>".toList ++ R))) =
      ulOpen ++ ("<li class=\"ml-4 mb-2\">".toList ++
        openListsAux 0 (t ++ '<' :: ("/li>".toList ++ R))) := rfl
  have e2 : openListsAux 0 ('<' :: ("/li>".toList ++ R)) =
      '<' :: ("/li>".toList ++ openListsAux 0 R) := rfl
  rw [e, e1, openListsAux_append t 0 _ (Nat.zero_le _), e2]
  simp [li1, openLists]

theorem openListsAux_li2 (t R : JSString) :
    openListsAux 0 (li2 t ++ R) = ulOpen ++ li2 (openLists t) ++ openListsAux 0 R := by
  have e : li2 t ++ R = "<li class=\"ml-8 mb-2\">".toList ++ (t ++ '<' :: ("/li>".toList ++ R)) := by
    simp [li2]
  have e1 : openListsAux 0 ("<li class=\"ml-8 mb-2\">".toList ++ (t ++ '<' :: ("/li>".toList ++ R))) =
      ulOpen ++ ("<li class=\"ml-8 mb-2\">".toList ++
        openListsAux 0 (t ++ '<' :: ("/li>".toList ++ R))) := rfl
  have e2 : openListsAux 0 ('<' :: ("/li>".toList ++ R)) =
      '<' :: ("/li>".toList ++ openListsAux 0 R) := rfl
  rw [e, e1, openListsAux_append t 0 _ (Nat.zero_le _), e2]
  simp [li2, openLists]

theorem openListsAux_para_any (l R : JSString) :
    openListsAux 0 (para l ++ R) = para (openLists l) ++ openListsAux 0 R := by
  have e : para l ++ R = "<div class=\"mb-2\">".toList ++ (l ++ '<' :: ("/div>".toList ++ R)) := by
    simp [para]
  have e1 : openListsAux 0 ("<div class=\"mb-2\">".toList ++ (l ++ '<' :: ("/div>".toList ++ R))) =
      "<div class=\"mb-2\">".toList ++ openListsAux 0 (l ++ '<' :: ("/div>".toList ++ R)) := rfl
  have e2 : openListsAux 0 ('<' :: ("/div>".toList ++ R)) =
      '<' :: ("/div>".toList ++ openListsAux 0 R) := rfl
  rw [e, e1, openListsAux_append l 0 _ (Nat.zero_le _), e2]
  simp [para, openLists]

theorem openListsAux_formatLine (line R : JSString) :
    openListsAux 0 (formatLine line ++ R) = openedBlock line ++ openListsAux 0 R := by
  unfold formatLine openedBlock
  split
  · exact openListsAux_li1 _ _
  · split
    · exact openListsAux_li1 _ _
    · split
      · exact openListsAux_li2 _ _
      · exact openListsAux_para_any _ _

theorem openLists_lines (ls : List JSString) :
    openLists (ls.map formatLine).flatten = (ls.map openedBlock).flatten := by
  unfold openLists
  induction ls with
  | nil => rfl
  | cons l ls ih =>
    rw [List.map_cons, List.flatten_cons, openListsAux_formatLine, ih, List.map_cons,
      List.flatten_cons]

theorem closeListsAux_item_end (Z : JSString) (f : Bool) (h : Follows Z f) :
    closeListsAux 0 ("</li>".toList ++ Z) = "</li>".toList ++ (listEnd f ++ closeListsAux 0 Z) := by
  rcases h with ⟨rfl, rfl⟩ | ⟨Y, rfl, rfl⟩ | ⟨Y, rfl, rfl⟩
  · rfl
  · have hm : closeMatch ('<' :: ("/li>".toList ++ '<' :: 'u' :: 'l' :: Y)) = none := by
      have e : '<' :: ("/li>".toList ++ '<' :: 'u' :: 'l' :: Y) =
          '<' :: '/' :: 'l' :: 'i' :: '>' :: '<' :: 'u' :: 'l' :: Y := rfl
      rw [e]
      simp [closeMatch, cli_lit, li_lit, ul_lit, List.isPrefixOf, List.takeWhile_cons,
        isSpace_lt, spacesThenLookahead, lookaheadOk]
    have e1 : "</li>".toList ++ '<' :: 'u' :: 'l' :: Y =
        '<' :: ("/li>".toList ++ '<' :: 'u' :: 'l' :: Y) := rfl
    have e2 : closeListsAux 0 ("/li>".toList ++ '<' :: 'u' :: 'l' :: Y) =
        "/li>".toList ++ closeListsAux 0 ('<' :: 'u' :: 'l' :: Y) := rfl
    rw [e1, closeListsAux_copy hm, e2]
    rfl
  · rfl

theorem closeListsAux_li1 (u Z : JSString) :
    closeListsAux 0 (ulOpen ++ li1 u ++ Z) =
      ulOpen ++ ("<li class=\"ml-4 mb-2\">".toList ++
        (closeLists u ++ closeListsAux 0 ("</li>".toList ++ Z))) := by
  have e : ulOpen ++ li1 u ++ Z =
      ulOpen ++ ("<li class=\"ml-4 mb-2\">".toList ++ (u ++ '<' :: '/' :: ("li>".toList ++ Z))) := by
    simp [li1]
  have e1 : closeListsAux 0
      (ulOpen ++ ("<li class=\"ml-4 mb-2\">".toList ++ (u ++ '<' :: '/' :: ("li>".toList ++ Z)))) =
      ulOpen ++ ("<li class=\"ml-4 mb-2\">".toList ++
        closeListsAux 0 (u ++ '<' :: '/' :: ("li>".toList ++ Z))) := rfl
  rw [e, e1, closeListsAux_append u 0 _ (Nat.zero_le _)]
  rfl

theorem closeListsAux_li2 (u Z : JSString) :
    closeListsAux 0 (ulOpen ++ li2 u ++ Z) =
      ulOpen ++ ("<li class=\"ml-8 mb-2\">".toList ++
        (closeLists u ++ closeListsAux 0 ("</li>".toList ++ Z))) := by
  have e : ulOpen ++ li2 u ++ Z =
      ulOpen ++ ("<li class=\"ml-8 mb-2\">".toList ++ (u ++ '<' :: '/' :: ("li>".toList ++ Z))) := by
    simp [li2]
  have e1 : closeListsAux 0
      (ulOpen ++ ("<li class=\"ml-8 mb-2\">".toList ++ (u ++ '<' :: '/' :: ("li>".toList ++ Z)))) =
      ulOpen ++ ("<li class=\"ml-8 mb-2\">".toList ++
        closeListsAux 0 (u ++ '<' :: '/' :: ("li>".toList ++ Z))) := rfl
  rw [e, e1, closeListsAux_append u 0 _ (Nat.zero_le _)]
  rfl

theorem closeListsAux_para_any (u Z : JSString) :
    closeListsAux 0 (para u ++ Z) = para (closeLists u) ++ closeListsAux 0 Z := by
  have e : para u ++ Z =
      "<div class=\"mb-2\">".toList ++ (u ++ '<' :: '/' :: ("div>".toList ++ Z)) := by
    simp [para]
  have e1 : closeListsAux 0
      ("<div class=\"mb-2\">".toList ++ (u ++ '<' :: '/' :: ("div>".toList ++ Z))) =
      "<div class=\"mb-2\">".toList ++
        closeListsAux 0 (u ++ '<' :: '/' :: ("div>".toList ++ Z)) := rfl
  have e2 : closeListsAux 0 ('<' :: '/' :: ("div>".toList ++ Z)) =
      '<' :: '/' :: ("div>".toList ++ closeListsAux 0 Z) := rfl
  rw [e, e1, closeListsAux_append u 0 _ (Nat.zero_le _), e2]
  simp [para, closeLists]

theorem closeListsAux_openedBlock (line Z : JSString) (f : Bool) (h : Follows Z f) :
    closeListsAux 0 (openedBlock line ++ Z) = outBlock line f ++ closeListsAux 0 Z := by
  unfold openedBlock outBlock
  split
  · rw [closeListsAux_li1, closeListsAux_item_end Z f h]
    simp [li1, wrapText]
  · split
    · rw [closeListsAux_li1, closeListsAux_item_end Z f h]
      simp [li1, wrapText]
    · split
      · rw [closeListsAux_li2, closeListsAux_item_end Z f h]
        simp [li2, wrapText]
      · rw [closeListsAux_para_any]
        rfl

theorem openedBlock_head (line rest : JSString) :
    (isItemLine line = true ∧ ∃ Y, openedBlock line ++ rest = '<' :: 'u' :: 'l' :: Y) ∨
    (isItemLine line = false ∧ ∃ Y, openedBlock line ++ rest = '<' :: 'd' :: Y) := by
  unfold openedBlock isItemLine
  split
  · rename_i h
    exact Or.inl ⟨by simp [h], _, rfl⟩
  · rename_i h1
    split
    · rename_i h
      exact Or.inl ⟨by simp [h], _, rfl⟩
    · rename_i h2
      split
      · rename_i h
        exact Or.inl ⟨by simp [h], _, rfl⟩
      · rename_i h3
        exact Or.inr ⟨by simp [h1, h2, h3], _, rfl⟩

theorem follows_openedBlocks (ls : List JSString) :
    Follows (ls.map openedBlock).flatten (nextIsItem ls) := by
  cases ls with
  | nil => exact Or.inl ⟨rfl, rfl⟩
  | cons n ls =>
    rw [List.map_cons, List.flatten_cons]
    rcases openedBlock_head n (ls.map openedBlock).flatten with ⟨h, Y, hY⟩ | ⟨h, Y, hY⟩
    · exact Or.inr (Or.inl ⟨Y, hY, h⟩)
    · exact Or.inr (Or.inr ⟨Y, hY, h⟩)

theorem closeLists_openedBlocks (ls : List JSString) :
    closeLists (ls.map openedBlock).flatten = (outBlocks ls).flatten := by
  unfold closeLists
  induction ls with
  | nil => rfl
  | cons l ls ih =>
    rw [List.map_cons, List.flatten_cons,
      closeListsAux_openedBlock l _ _ (follows_openedBlocks ls), ih]
    rfl

theorem formatDefinition_eq_outBlocks (text : JSString) (hne : text ≠ []) :
    formatDefinition (some text) = (outBlocks (splitLines text)).flatten := by
  cases text with
  | nil => exact absurd rfl hne
  | cons c rest =>
    show closeLists (openLists (joinedLines (c :: rest))) = _
    unfold joinedLines
    rw [openLists_lines, closeLists_openedBlocks]

theorem openLists_clean (t : JSString) (h : includes t "<li".toList = false) :
    openLists t = t := by
  unfold openLists
  induction t with
  | nil => rfl
  | cons c t ih =>
    obtain ⟨h1, h2⟩ := includes_cons_false h
    rw [openListsAux_copy h1, ih h2]

theorem closeLists_clean (t : JSString) (h : includes t "</li>".toList = false) :
    closeLists t = t := by
  unfold closeLists
  induction t with
  | nil => rfl
  | cons c t ih =>
    obtain ⟨h1, h2⟩ := includes_cons_false h
    have hm : closeMatch (c :: t) = none := by
      simp only [closeMatch, h1, Bool.false_eq_true, if_false]
    rw [closeListsAux_copy hm, ih h2]

theorem wrapText_clean (t : JSString) (h1 : includes t "<li".toList = false)
    (h2 : includes t "</li>".toList = false) : wrapText t = t := by
  unfold wrapText
  rw [openLists_clean t h1, closeLists_clean t h2]

theorem outBlocks_length (ls : List JSString) : (outBlocks ls).length = ls.length := by
  induction ls with
  | nil => rfl
  | cons l ls ih => simp [outBlocks, ih]

theorem outBlocks_getElem? (ls : List JSString) :
    ∀ (i : Nat) (line : JSString), ls[i]? = some line →
      (outBlocks ls)[i]? = some (outBlock line (nextIsItem (ls.drop (i + 1)))) := by
  induction ls with
  | nil =>
    intro i line h
    simp at h
  | cons l ls ih =>
    intro i line h
    cases i with
    | zero =>
      simp only [List.getElem?_cons_zero, Option.some.injEq] at h
      subst h
      simp [outBlocks]
    | succ i =>
      simp only [List.getElem?_cons_succ] at h
      simpa [outBlocks] using ih i line h

theorem outBlock_of_letter {line rest : JSString} (h : letterMarker line = some rest)
    (f : Bool) :
    outBlock line f = ulOpen ++ li1 (wrapText (rest.dropWhile isSpace)) ++ listEnd f := by
  simp [outBlock, stripMarker, h]

theorem outBlock_of_digit {line rest : JSString} (h1 : letterMarker line = none)
    (h2 : digitMarker line = some rest) (f : Bool) :
    outBlock line f = ulOpen ++ li1 (wrapText (rest.dropWhile isSpace)) ++ listEnd f := by
  simp [outBlock, stripMarker, h1, h2]

theorem outBlock_of_roman {line rest : JSString} (h1 : letterMarker line = none)
    (h2 : digitMarker line = none) (h3 : romanMarker line = some rest) (f : Bool) :
    outBlock line f = ulOpen ++ li2 (wrapText (rest.dropWhile isSpace)) ++ listEnd f := by
  simp [outBlock, stripMarker, h1, h2, h3]

theorem outBlock_shape (line : JSString) (f : Bool) :
    (∃ t, outBlock line f = ulOpen ++ li1 (wrapText t) ++ listEnd f) ∨
    (∃ t, outBlock line f = ulOpen ++ li2 (wrapText t) ++ listEnd f) ∨
    outBlock line f = para (wrapText line) := by
  unfold outBlock
  split
  · exact Or.inl ⟨_, rfl⟩
  · split
    · exact Or.inl ⟨_, rfl⟩
    · split
      · exact Or.inr (Or.inl ⟨_, rfl⟩)
      · exact Or.inr (Or.inr rfl)

theorem splitLines_nil_getElem? {i : Nat} {line : JSString}
    (h : (splitLines [])[i]? = some line) : line = [] := by
  cases i with
  | zero =>
    simp only [splitLines, List.getElem?_cons_zero, Option.some.injEq] at h
    exact h.symm
  | succ i => simp [splitLines] at h

theorem rendersItem_of_outBlock (line item : JSString) (hne : line ≠ [])
    (h : ∀ f, outBlock line f = ulOpen ++ item ++ listEnd f) :
    RendersItem line item ∧
    ('\n' ∉ line → formatDefinition (some line) = ulOpen ++ item ++ ulClose) := by
  have main : RendersItem line item := by
    intro text i hi
    have htext : text ≠ [] := by
      rintro rfl
      exact hne (splitLines_nil_getElem? hi)
    refine ⟨formatDefinition_eq_outBlocks text htext, ?_⟩
    rw [outBlocks_getElem? _ i line hi, h]
  refine ⟨main, fun hnl => ?_⟩
  rw [formatDefinition_eq_outBlocks line hne, splitLines_of_no_newline line hnl]
  simp [outBlocks, nextIsItem, h, listEnd]

/-- C3: for a text with at least one newline, the lines are those of the split
on the newline (joined again by newlines they give the text, none contains a
newline, and there is one more of them than newlines); the result of
`formatDefinition` is the concatenation, in line order, of exactly one block
per line: the block at position `i` is made from line `i` alone (and from
whether an item follows it), and it is one list item inside its list opening
or one paragraph. -/
theorem formatDefinition_one_block_per_line (text : JSString) (h : '\n' ∈ text) :
    ['\n'].intercalate (splitLines text) = text ∧
    (∀ l ∈ splitLines text, '\n' ∉ l) ∧
    (splitLines text).length = text.count '\n' + 1 ∧
    2 ≤ (splitLines text).length ∧
    formatDefinition (some text) = (outBlocks (splitLines text)).flatten ∧
    (outBlocks (splitLines text)).length = (splitLines text).length ∧
    (∀ (i : Nat) (line : JSString), (splitLines text)[i]? = some line →
      (outBlocks (splitLines text))[i]? =
        some (outBlock line (nextIsItem ((splitLines text).drop (i + 1))))) ∧
    (∀ (line : JSString) (f : Bool),
      (∃ t, outBlock line f = ulOpen ++ li1 (wrapText t) ++ listEnd f) ∨
      (∃ t, outBlock line f = ulOpen ++ li2 (wrapText t) ++ listEnd f) ∨
      outBlock line f = para (wrapText line)) ∧
    (∀ t : JSString, includes t "<li".toList = false → includes t "</li>".toList = false →
      wrapText t = t) := by
  have hne : text ≠ [] := by
    rintro rfl
    simp at h
  refine ⟨intercalate_splitLines text, splitLines_no_newline text, splitLines_length text,
    ?_, formatDefinition_eq_outBlocks text hne, outBlocks_length _, outBlocks_getElem? _,
    outBlock_shape, wrapText_clean⟩
  rw [splitLines_length]
  have := List.count_pos_iff.2 h
  omega

/-- Witness of C3: a paragraph, a level-2 item, an empty line and a paragraph. -/
theorem formatDefinition_one_block_per_line_witness :
    (splitLines "Intro\nii)  Foo\n\nx".toList).length = 4 ∧
    outBlocks (splitLines "Intro\nii)  Foo\n\nx".toList) =
      [para "Intro".toList, ulOpen ++ li2 "Foo".toList ++ ulClose, para [], para "x".toList] ∧
    formatDefinition (some "Intro\nii)  Foo\n\nx".toList) =
      "<div class=\"mb-2\">Intro</div><ul class=\"list-disc mb-4\"><li class=\"ml-8 mb-2\">Foo</li></ul><div class=\"mb-2\"></div><div class=\"mb-2\">x</div>".toList :=
  have h := formatDefinition_one_block_per_line "Intro\nii)  Foo\n\nx".toList (by decide)
  ⟨h.2.2.1, by decide, h.2.2.2.2.1.trans (by decide)⟩

/-- C4, counterexample: the line "a) voir <li>" is the marker `a)`, one space
and the text "voir <li>", which does not begin with white space; the result
of `formatDefinition` holds a list opening inside the item, and nowhere the
item with the text "voir <li>". -/
theorem formatDefinition_item_text_changed :
    "a) voir <li>".toList = ['a', ')'] ++ " ".toList ++ "voir <li>".toList ∧
    (∀ x ∈ " ".toList, isSpace x = true) ∧
    ("voir <li>".toList.head?.map isSpace = some false) ∧
    formatDefinition (some "a) voir <li>".toList) =
      "<ul class=\"list-disc mb-4\"><li class=\"ml-4 mb-2\">voir <ul class=\"list-disc mb-4\"><li></li></ul>".toList ∧
    includes (formatDefinition (some "a) voir <li>".toList)) (li1 "voir <li>".toList) = false := by
  decide

/-- C4, amended: for a line made of a marker (one lowercase letter, a run of
digits, or a run of characters of `i`, `v`, `x`, each immediately followed by
`)`), then white space `w`, then a text `t` that does not begin with white
space and contains neither "<li" nor "</li>", the block that the result of
`formatDefinition` holds for that line is the list item with exactly `t` as
its text, inside its list opening (and followed by the list closing when no
item follows); the item is of level 2 for a run of two or more of `i`, `v`,
`x` and of level 1 otherwise.  For such a line alone the result is the list
opening, the item and the list closing. -/
theorem formatDefinition_item_text (w t : JSString) (hw : ∀ x ∈ w, isSpace x = true)
    (ht : ∀ x rest, t = x :: rest → isSpace x = false)
    (hli : includes t "<li".toList = false) (hcli : includes t "</li>".toList = false) :
    (∀ c : Char, 'a' ≤ c → c ≤ 'z' →
      RendersItem ([c, ')'] ++ w ++ t) (li1 t) ∧
      ('\n' ∉ [c, ')'] ++ w ++ t →
        formatDefinition (some ([c, ')'] ++ w ++ t)) = ulOpen ++ li1 t ++ ulClose)) ∧
    (∀ ds : JSString, ds ≠ [] → (∀ d ∈ ds, '0' ≤ d ∧ d ≤ '9') →
      RendersItem ((ds ++ [')']) ++ w ++ t) (li1 t) ∧
      ('\n' ∉ (ds ++ [')']) ++ w ++ t →
        formatDefinition (some ((ds ++ [')']) ++ w ++ t)) = ulOpen ++ li1 t ++ ulClose)) ∧
    (∀ rs : JSString, rs ≠ [] → (∀ r ∈ rs, r = 'i' ∨ r = 'v' ∨ r = 'x') →
      RendersItem ((rs ++ [')']) ++ w ++ t) (if rs.length = 1 then li1 t else li2 t) ∧
      ('\n' ∉ (rs ++ [')']) ++ w ++ t →
        formatDefinition (some ((rs ++ [')']) ++ w ++ t)) =
          ulOpen ++ (if rs.length = 1 then li1 t else li2 t) ++ ulClose)) := by
  have hdrop := dropWhile_spaces w t hw ht
  have hwrap := wrapText_clean t hli hcli
  have letter : ∀ c : Char, isLowerLetter c = true →
      RendersItem ([c, ')'] ++ w ++ t) (li1 t) ∧
      ('\n' ∉ [c, ')'] ++ w ++ t →
        formatDefinition (some ([c, ')'] ++ w ++ t)) = ulOpen ++ li1 t ++ ulClose) := by
    intro c hc
    have hm : letterMarker ([c, ')'] ++ w ++ t) = some (w ++ t) :=
      letterMarker_eq_some.2 ⟨c, by simp, hc⟩
    refine rendersItem_of_outBlock _ _ (by simp) fun f => ?_
    rw [outBlock_of_letter hm, hdrop, hwrap]
  refine ⟨fun c h1 h2 => letter c ((isLowerLetter_iff c).2 ⟨h1, h2⟩), ?_, ?_⟩
  · intro ds hne hall
    have hline : (ds ++ [')']) ++ w ++ t = ds ++ ')' :: (w ++ t) := by simp
    rw [hline]
    have h2 : digitMarker (ds ++ ')' :: (w ++ t)) = some (w ++ t) :=
      runMarker_of_run isDigit (by decide) ds _ hne fun d hd => (isDigit_iff d).2 (hall d hd)
    have h1 : letterMarker (ds ++ ')' :: (w ++ t)) = none := by
      match ds, hne, hall with
      | d :: tl, _, hall =>
        have hd : isDigit d = true := (isDigit_iff d).2 (hall d (by simp))
        have hl : isLowerLetter d = false := by
          cases hlow : isLowerLetter d with
          | false => rfl
          | true => rw [isDigit_of_isLowerLetter hlow] at hd; cases hd
        exact letterMarker_of_not_lower d _ hl
    refine rendersItem_of_outBlock _ _ (by simp) fun f => ?_
    rw [outBlock_of_digit h1 h2, hdrop, hwrap]
  · intro rs hne hall
    match rs, hne, hall with
    | [r], _, hall =>
      have hr : isIvx r = true := (isIvx_iff r).2 (hall r (by simp))
      simpa using letter r (isLowerLetter_of_isIvx hr)
    | a :: b :: tl, _, hall =>
      have ha : isIvx a = true := (isIvx_iff a).2 (hall a (by simp))
      have hb : isIvx b = true := (isIvx_iff b).2 (hall b (by simp))
      have hbne : b ≠ ')' := by
        rintro rfl
        exact absurd hb (by decide)
      have hline : ((a :: b :: tl) ++ [')']) ++ w ++ t = a :: b :: (tl ++ ')' :: (w ++ t)) := by
        simp
      have hlen : ¬ ((a :: b :: tl).length = 1) := by simp
      rw [hline, if_neg hlen]
      have n1 : letterMarker (a :: b :: (tl ++ ')' :: (w ++ t))) = none :=
        letterMarker_of_second_ne a b _ hbne
      have n2 : digitMarker (a :: b :: (tl ++ ')' :: (w ++ t))) = none :=
        runMarker_of_not_head isDigit a _ (isDigit_of_isLowerLetter (isLowerLetter_of_isIvx ha))
      have n3 : romanMarker (a :: b :: (tl ++ ')' :: (w ++ t))) = some (w ++ t) :=
        runMarker_of_run isIvx (by decide) (a :: b :: tl) _ (by simp)
          fun x hx => (isIvx_iff x).2 (hall x hx)
      refine rendersItem_of_outBlock _ _ (by simp) fun f => ?_
      rw [outBlock_of_roman n1 n2 n3, hdrop, hwrap]

/-- Witness of the amended C4: "a) Foo", "1) Foo" and "ii) Foo" alone, and
"ii) Foo" as the second of three lines. -/
theorem formatDefinition_item_text_witness :
    formatDefinition (some "a) Foo".toList) =
      "<ul class=\"list-disc mb-4\"><li class=\"ml-4 mb-2\">Foo</li></ul>".toList ∧
    formatDefinition (some "1) Foo".toList) =
      "<ul class=\"list-disc mb-4\"><li class=\"ml-4 mb-2\">Foo</li></ul>".toList ∧
    formatDefinition (some "ii) Foo".toList) =
      "<ul class=\"list-disc mb-4\"><li class=\"ml-8 mb-2\">Foo</li></ul>".toList ∧
    (outBlocks (splitLines "Intro\nii) Foo\nb) Bar".toList))[1]? =
      some ("<ul class=\"list-disc mb-4\"><li class=\"ml-8 mb-2\">Foo</li>".toList) :=
  have h := formatDefinition_item_text " ".toList "Foo".toList (by decide)
    (by intro x rest hx; cases hx; rfl) (by decide) (by decide)
  ⟨(h.1 'a' (by decide) (by decide)).2 (by decide),
   (h.2.1 "1".toList (by decide) (by decide)).2 (by decide),
   (h.2.2 "ii".toList (by decide) (by decide)).2 (by decide),
   ((h.2.2 "ii".toList (by decide) (by decide)).1 "Intro\nii) Foo\nb) Bar".toList 1
      (by decide)).2⟩

/-! ## The list wrapping on runs of items -/

/-- C10, evaluation: on the two-item text "a) Foo", "b) Bar", whose lines hold
no `<`, the result has two list openings and one list closing. -/
theorem formatDefinition_two_items :
    formatDefinition (some "a) Foo\nb) Bar".toList) =
      "<ul class=\"list-disc mb-4\"><li class=\"ml-4 mb-2\">Foo</li><ul class=\"list-disc mb-4\"><li class=\"ml-4 mb-2\">Bar</li></ul>".toList ∧
    '<' ∉ "a) Foo\nb) Bar".toList ∧
    countOcc "<ul".toList (formatDefinition (some "a) Foo\nb) Bar".toList)) = 2 ∧
    countOcc "</ul>".toList (formatDefinition (some "a) Foo\nb) Bar".toList)) = 1 := by
  decide

/-! ## formatSource -/

/-- C1: for a citation `s` whose first character is a decimal digit,
`formatSource` gives "Modèle de règles, art. " followed by `s` for `modeleFR`
and `modeleEN`, "Dir. GloBE, art. " followed by `s` for `directiveFR` and
`directiveEN`, and "CGI, art. " followed by `s` for `cgi`. -/
theorem formatSource_digit_leading (s : JSString) (c : Char) (rest : JSString)
    (hs : s = c :: rest) (hc : '0' ≤ c ∧ c ≤ '9') :
    formatSource (some s) "modeleFR" = "Modèle de règles, art. ".toList ++ s ∧
    formatSource (some s) "modeleEN" = "Modèle de règles, art. ".toList ++ s ∧
    formatSource (some s) "directiveFR" = "Dir. GloBE, art. ".toList ++ s ∧
    formatSource (some s) "directiveEN" = "Dir. GloBE, art. ".toList ++ s ∧
    formatSource (some s) "cgi" = "CGI, art. ".toList ++ s := by
  subst hs
  have hd : startsWithDigit (c :: rest) = true := (isDigit_iff c).2 hc
  refine ⟨?_, ?_, ?_, ?_, ?_⟩ <;> simp +decide [formatSource, hd]

/-- Witness of C1 at the citation "3.2.1". -/
theorem formatSource_digit_leading_witness :
    formatSource (some "3.2.1".toList) "modeleFR" = "Modèle de règles, art. 3.2.1".toList ∧
    formatSource (some "3.2.1".toList) "directiveEN" = "Dir. GloBE, art. 3.2.1".toList ∧
    formatSource (some "3.2.1".toList) "cgi" = "CGI, art. 3.2.1".toList :=
  have h := formatSource_digit_leading "3.2.1".toList '3' ".2.1".toList rfl (by decide)
  ⟨h.1, h.2.2.2.1, h.2.2.2.2⟩

/-- C5: for a citation `s` whose first character is not a decimal digit,
`formatSource` returns `s` unchanged for each of the five sources (and for any
other source identifier); for an absent or empty citation the result is the
empty string, whatever the source. -/
theorem formatSource_identity :
    (∀ (s : JSString) (c : Char) (rest : JSString) (sourceType : String),
      s = c :: rest → ¬ ('0' ≤ c ∧ c ≤ '9') → formatSource (some s) sourceType = s) ∧
    (∀ sourceType : String, formatSource none sourceType = []) ∧
    (∀ sourceType : String, formatSource (some []) sourceType = []) := by
  refine ⟨?_, fun _ => rfl, fun _ => rfl⟩
  intro s c rest sourceType hs hc
  subst hs
  have hd : startsWithDigit (c :: rest) = false := by
    simpa [startsWithDigit] using mt (isDigit_iff c).1 hc
  simp [formatSource, hd]

/-- Witness of C5 at the citation "Art. 2" and the source `cgi`. -/
theorem formatSource_identity_witness :
    formatSource (some "Art. 2".toList) "cgi" = "Art. 2".toList :=
  formatSource_identity.1 "Art. 2".toList 'A' "rt. 2".toList "cgi" rfl (by decide)

/-! ## The term table -/

theorem truthy_iff (o : Option JSString) : truthy o = true ↔ (o ≠ none ∧ o ≠ some []) := by
  cases o with
  | none => simp [truthy]
  | some s => cases s <;> simp [truthy]

theorem hasTerm_buildRecord (row : Row) :
    hasTerm (buildRecord row) =
      decide (∃ i ∈ [1, 3, 6, 8, 11], row[i]? ≠ none ∧ row[i]? ≠ some []) := by
  rw [Bool.eq_iff_iff]
  simp only [hasTerm, buildRecord, Bool.or_eq_true, truthy_iff, decide_eq_true_eq,
    List.mem_cons, List.mem_singleton, List.not_mem_nil, or_false, exists_eq_or_imp,
    exists_eq_left, or_assoc]

/-- C7: the table built by the map-then-filter step of the loader holds the
records of exactly the rows in which at least one of the five term cells
(columns 1, 3, 6, 8 and 11) is present and non-empty, in the order of their
rows; a row whose five term cells are all empty or missing yields no record. -/
theorem processedData_rows_with_term :
    (∀ data : List Row, processedData data =
      (data.filter fun row =>
        decide (∃ i ∈ [1, 3, 6, 8, 11], row[i]? ≠ none ∧ row[i]? ≠ some [])).map buildRecord) ∧
    (∀ (before after : List Row) (row : Row),
      (∀ i ∈ [1, 3, 6, 8, 11], row[i]? = none ∨ row[i]? = some []) →
      processedData (before ++ row :: after) = processedData before ++ processedData after) ∧
    (∀ (before after : List Row) (row : Row),
      (∃ i ∈ [1, 3, 6, 8, 11], row[i]? ≠ none ∧ row[i]? ≠ some []) →
      processedData (before ++ row :: after) =
        processedData before ++ buildRecord row :: processedData after) := by
  refine ⟨?_, ?_, ?_⟩
  · intro data
    simp only [processedData, List.filter_map]
    congr 1
    apply List.filter_congr
    intro row _
    exact hasTerm_buildRecord row
  · intro before after row h
    have hk : hasTerm (buildRecord row) = false := by
      rw [hasTerm_buildRecord, decide_eq_false_iff_not]
      rintro ⟨i, hi, h1, h2⟩
      rcases h i hi with h3 | h3
      · exact h1 h3
      · exact h2 h3
    simp [processedData, List.filter_cons, hk]
  · intro before after row h
    have hk : hasTerm (buildRecord row) = true := by
      rw [hasTerm_buildRecord, decide_eq_true_eq]
      exact h
    simp [processedData, List.filter_cons, hk]

/-- Witness of C7: a row without any term between two rows with a term. -/
theorem processedData_rows_with_term_witness :
    processedData
        ([["1.1".toList, "terme".toList]] ++
          ["9".toList, [], "d".toList, []] :: [[[], [], [], "term".toList]]) =
      processedData [["1.1".toList, "terme".toList]] ++
        processedData [[[], [], [], "term".toList]] ∧
    processedData ([] ++ ["1.1".toList, "terme".toList] :: []) =
      processedData [] ++ buildRecord ["1.1".toList, "terme".toList] :: processedData [] :=
  ⟨processedData_rows_with_term.2.1 _ _ _ (by decide),
   processedData_rows_with_term.2.2 _ _ _ (by decide)⟩

/-! ## filteredTerms -/

theorem includes_nil (s : JSString) : includes s [] = true := by
  cases s <;> simp [includes]

theorem get?_isSome_of_mem (t : TermRecord) (src : Source) (h : src ∈ sources) :
    ∃ e, t.get? src.id = some e := by
  simp only [sources, List.mem_cons, List.mem_singleton, List.not_mem_nil, or_false] at h
  rcases h with h | h | h | h | h <;> subst h <;> simp +decide [TermRecord.get?]

theorem filterThrow_total {α : Type} (p : α → Option Bool) (q : α → Bool) (l : List α)
    (h : ∀ x ∈ l, p x = some (q x)) : filterThrow p l = some (l.filter q) := by
  induction l with
  | nil => rfl
  | cons x xs ih =>
    have hx := h x (List.mem_cons_self x xs)
    have hxs := ih fun y hy => h y (List.mem_cons_of_mem x hy)
    simp only [filterThrow, hx, hxs, List.filter_cons]

/-- C8, counterexample: a record built by the loader from a short row has no
term for `cgi`; with `cgi` as the active source the empty search drops it. -/
theorem filteredTerms_empty_search_drops :
    processedData [["1.1".toList, "terme".toList]] =
      [buildRecord ["1.1".toList, "terme".toList]] ∧
    filteredTerms (fun s => s.map Char.toLower)
        (processedData [["1.1".toList, "terme".toList]])
        { id := "cgi", label := "CGI", col := 11, sourceCol := 10 } [] = some [] := by
  decide

/-- C8, amended: for every term table and every active source, filtering with
the empty search string returns, in the original order, exactly the records
whose term for the active source is present (an empty term counts as present);
so a table in which every record has a term for the active source is returned
in full. -/
theorem filteredTerms_empty_search (lower : JSString → JSString) (hlower : lower [] = [])
    (terms : List TermRecord) (src : Source) (hsrc : src ∈ sources) :
    filteredTerms lower terms src [] =
      some (terms.filter fun t => ((t.get? src.id).bind fun e => e.term).isSome) ∧
    ((∀ t ∈ terms, ∃ e s, t.get? src.id = some e ∧ e.term = some s) →
      filteredTerms lower terms src [] = some terms) := by
  have key : filteredTerms lower terms src [] =
      some (terms.filter fun t => ((t.get? src.id).bind fun e => e.term).isSome) := by
    apply filterThrow_total
    intro t _
    obtain ⟨e, he⟩ := get?_isSome_of_mem t src hsrc
    simp only [matchesSearch, he, Option.some_bind]
    cases e.term with
    | none => rfl
    | some s => simp [hlower, includes_nil]
  refine ⟨key, fun hall => ?_⟩
  rw [key, List.filter_eq_self.2]
  intro t ht
  obtain ⟨e, s, he, hs⟩ := hall t ht
  simp [he, hs]

/-- Witness of the amended C8: a two-record table searched in `modeleFR`. -/
theorem filteredTerms_empty_search_witness :
    filteredTerms (fun s => s.map Char.toLower)
        [buildRecord ["1.1".toList, "Terme".toList], buildRecord ["2".toList, []]]
        { id := "modeleFR", label := "Modèle (FR)", col := 1, sourceCol := 0 } [] =
      some [buildRecord ["1.1".toList, "Terme".toList], buildRecord ["2".toList, []]] :=
  (filteredTerms_empty_search (fun s => s.map Char.toLower) rfl
    [buildRecord ["1.1".toList, "Terme".toList], buildRecord ["2".toList, []]]
    { id := "modeleFR", label := "Modèle (FR)", col := 1, sourceCol := 0 } (by decide)).2
    (by
      intro t ht
      simp only [List.mem_cons, List.mem_singleton, List.not_mem_nil, or_false] at ht
      rcases ht with rfl | rfl <;> exact ⟨_, _, rfl, rfl⟩)

/-! ## The selection state -/

theorem find?_id_eq {value : String} {src : Source}
    (h : sources.find? (fun s => s.id = value) = some src) : src.id = value := by
  simpa using List.find?_some h

theorem find?_id_ne {value : String} {src : Source}
    (h : sources.find? (fun s => s.id ≠ value) = some src) : src.id ≠ value := by
  simpa using List.find?_some h

theorem find?_id_isSome {value : String} (h : value ∈ selectedOptions) :
    ∃ src, sources.find? (fun s => s.id = value) = some src := by
  simp only [selectedOptions, sources, List.map_cons, List.map_nil, List.mem_cons,
    List.mem_singleton, List.not_mem_nil, or_false] at h
  rcases h with h | h | h | h | h <;> subst h <;> exact ⟨_, rfl⟩

theorem find?_other_isSome (value : String) :
    ∃ src, sources.find? (fun s => s.id ≠ value) = some src := by
  by_cases h : value = "modeleFR"
  · subst h
    exact ⟨_, rfl⟩
  · refine ⟨{ id := "modeleFR", label := "Modèle (FR)", col := 1, sourceCol := 0 }, ?_⟩
    simp [sources, List.find?_cons, Ne.symm h]

theorem mem_compareOptions {st : Selection} {value : String}
    (h : value ∈ compareOptions st) : value ∈ selectedOptions ∧ value ≠ st.selectedSource.id := by
  simp only [compareOptions, List.mem_map, List.mem_filter, decide_eq_true_eq] at h
  obtain ⟨src, ⟨hmem, hne⟩, rfl⟩ := h
  exact ⟨List.mem_map.2 ⟨src, hmem, rfl⟩, hne⟩

theorem step_chooseSelected {st : Selection} {value : String} (h : value ∈ selectedOptions) :
    ∃ st1, step st (.chooseSelected value) = some st1 ∧ st1.selectedSource.id = value ∧
      st1.compareSource.id ≠ value := by
  obtain ⟨src, hsrc⟩ := find?_id_isSome h
  have hid := find?_id_eq hsrc
  obtain ⟨other, hother⟩ := find?_other_isSome src.id
  have hne := find?_id_ne hother
  by_cases hc : st.compareSource.id = src.id
  · refine ⟨{ selectedSource := src, compareSource := other }, ?_, hid, hid ▸ hne⟩
    simp only [step, if_pos h, onChangeSelected, hsrc, if_pos hc, hother]
  · refine ⟨{ selectedSource := src, compareSource := st.compareSource }, ?_, hid, hid ▸ hc⟩
    simp only [step, if_pos h, onChangeSelected, hsrc, if_neg hc]

theorem step_chooseCompare {st : Selection} {value : String} (h : value ∈ compareOptions st) :
    ∃ st1, step st (.chooseCompare value) = some st1 ∧
      st1.selectedSource = st.selectedSource ∧ st1.compareSource.id = value := by
  obtain ⟨src, hsrc⟩ := find?_id_isSome (mem_compareOptions h).1
  refine ⟨{ selectedSource := st.selectedSource, compareSource := src }, ?_, rfl,
    find?_id_eq hsrc⟩
  simp [step, h, onChangeCompare, hsrc]

theorem step_distinct {st st1 : Selection} {e : Event} (h : step st e = some st1) :
    st1.selectedSource.id ≠ st1.compareSource.id := by
  cases e with
  | chooseSelected value =>
    by_cases hv : value ∈ selectedOptions
    · obtain ⟨st2, h2, hs, hc⟩ := @step_chooseSelected st value hv
      rw [h2] at h
      cases h
      rw [hs]
      exact Ne.symm hc
    · simp [step, hv] at h
  | chooseCompare value =>
    by_cases hv : value ∈ compareOptions st
    · obtain ⟨st2, h2, hs, hc⟩ := step_chooseCompare hv
      rw [h2] at h
      cases h
      rw [hs, hc]
      exact Ne.symm (mem_compareOptions hv).2
    · simp [step, hv] at h

theorem run_distinct (evs : List Event) :
    ∀ st st1 : Selection, st.selectedSource.id ≠ st.compareSource.id →
      run st evs = some st1 → st1.selectedSource.id ≠ st1.compareSource.id := by
  induction evs with
  | nil =>
    intro st st1 hst h
    simp only [run, Option.some.injEq] at h
    exact h ▸ hst
  | cons e es ih =>
    intro st st1 _ h
    simp only [run] at h
    cases hstep : step st e with
    | none => simp [hstep] at h
    | some st2 =>
      rw [hstep] at h
      exact ih st2 st1 (step_distinct hstep) h

/-- C9: the selection starts with `modeleFR` active and `modeleEN` compared;
every value a select offers is accepted, and after every transition, hence in
every reachable state, the active and the comparison source differ; choosing
as active source the current comparison source moves the comparison source to
a source other than the new active one. -/
theorem selection_sources_distinct :
    (initialSelection.selectedSource.id = "modeleFR" ∧
      initialSelection.compareSource.id = "modeleEN") ∧
    (∀ (st : Selection) (value : String), value ∈ selectedOptions →
      (step st (.chooseSelected value)).isSome = true) ∧
    (∀ (st : Selection) (value : String), value ∈ compareOptions st →
      (step st (.chooseCompare value)).isSome = true) ∧
    (∀ (st st1 : Selection) (e : Event), step st e = some st1 →
      st1.selectedSource.id ≠ st1.compareSource.id) ∧
    (∀ (evs : List Event) (st : Selection), run initialSelection evs = some st →
      st.selectedSource.id ≠ st.compareSource.id) ∧
    (∀ (st : Selection) (value : String), value ∈ selectedOptions →
      st.compareSource.id = value →
      ∃ st1, step st (.chooseSelected value) = some st1 ∧
        st1.selectedSource.id = value ∧ st1.compareSource.id ≠ value) := by
  refine ⟨⟨rfl, rfl⟩, ?_, ?_, ?_, ?_, ?_⟩
  · intro st value h
    obtain ⟨st1, h1, _⟩ := @step_chooseSelected st value h
    simp [h1]
  · intro st value h
    obtain ⟨st1, h1, _⟩ := step_chooseCompare h
    simp [h1]
  · intro st st1 e h
    exact step_distinct h
  · intro evs st h
    exact run_distinct evs initialSelection st (by decide) h
  · intro st value h _
    exact step_chooseSelected h

/-- Witness of C9: from the initial state, choosing `modeleEN` (the current
comparison source) as active source gives `modeleEN` / `modeleFR`; choosing
`cgi` for comparison then gives `modeleEN` / `cgi`. -/
theorem selection_sources_distinct_witness :
    run initialSelection [.chooseSelected "modeleEN", .chooseCompare "cgi"] =
      some { selectedSource := { id := "modeleEN", label := "Modèle (EN)", col := 3, sourceCol := 0 },
             compareSource := { id := "cgi", label := "CGI", col := 11, sourceCol := 10 } } ∧
    ("modeleEN" : String) ≠ "cgi" ∧
    step initialSelection (.chooseSelected "modeleEN") =
      some { selectedSource := { id := "modeleEN", label := "Modèle (EN)", col := 3, sourceCol := 0 },
             compareSource := { id := "modeleFR", label := "Modèle (FR)", col := 1, sourceCol := 0 } } :=
  ⟨by decide,
   selection_sources_distinct.2.2.2.2.1
     [.chooseSelected "modeleEN", .chooseCompare "cgi"]
     { selectedSource := { id := "modeleEN", label := "Modèle (EN)", col := 3, sourceCol := 0 },
       compareSource := { id := "cgi", label := "CGI", col := 11, sourceCol := 10 } }
     (by decide),
   by decide⟩

end Lexique
